import Mathlib

set_option maxHeartbeats 2000000
set_option maxRecDepth 8000

/-!
Verification development for the `nip` dataset engine (`src/nip/dataset.py`).

The Python core is embedded shallowly:

* Python `dict` (insertion-ordered) becomes an association list;
* machine state threaded through `Except PyErr`, where `PyErr` mirrors the
  exceptions the code can raise (`ValueError`, `KeyError`, `IndexError`,
  `TypeError`);
* `os.walk` is modelled as a pre-order traversal of an abstract
  filesystem tree `FSTree`;
* the Python `re.match` on caller-supplied patterns is abstracted as a
  boolean matcher parameter `rmatch : String → String → Bool` (the code
  applies the same `FileItem.is_match` test on the flat list and on the
  session-nested lists, so every statement below is uniform in the matcher);
  the three fixed BIDS patterns of `_validator` are translated concretely;
* `warnings.warn` becomes an accumulated list of warning subjects.
-/

deriving instance DecidableEq for Except

namespace Nip

/-! ## Python-style primitive helpers -/

/-- Exceptions that the translated code can raise. -/
inductive PyErr where
  | valueError (msg : String)
  | keyError (key : String)
  | indexError
  | typeError
deriving DecidableEq

/-- Codepoint comparison of characters, as Python compares strings. -/
def charLt (a b : Char) : Bool := a.val < b.val

/-- Lexicographic codepoint comparison of character lists (Python `str` `<`). -/
def charListLt : List Char → List Char → Bool
  | [], [] => false
  | [], _ :: _ => true
  | _ :: _, [] => false
  | a :: as, b :: bs =>
    if charLt a b then true else if charLt b a then false else charListLt as bs

/-- Python string comparison `a < b`. -/
def strLt (a b : String) : Bool := charListLt a.data b.data

/-- Stable insertion of `x` into `l`: `x` goes before the first element that is
not strictly smaller than it.  Used to model the stable Python `sorted`. -/
def insertLt (lt : α → α → Bool) (x : α) : List α → List α
  | [] => [x]
  | y :: ys => if lt y x then y :: insertLt lt x ys else x :: y :: ys

/-- Stable sort (model of Python `sorted` with the corresponding key). -/
def sortLt (lt : α → α → Bool) : List α → List α
  | [] => []
  | x :: xs => insertLt lt x (sortLt lt xs)

/-- Lookup in an insertion-ordered dictionary (first matching key). -/
def dget [DecidableEq κ] (d : List (κ × α)) (k : κ) : Option α :=
  match d with
  | [] => none
  | (k', v) :: rest => if k' = k then some v else dget rest k

/-- Assignment `d[k] = v` in an insertion-ordered dictionary: replaces the
value in place when the key exists, appends the pair otherwise. -/
def dset [DecidableEq κ] (d : List (κ × α)) (k : κ) (v : α) : List (κ × α) :=
  match d with
  | [] => [(k, v)]
  | (k', v') :: rest => if k' = k then (k, v) :: rest else (k', v') :: dset rest k v

/-- Splitting a character list at the first occurrence of `c`
(`none` when `c` does not occur). -/
def splitFirstChar (c : Char) : List Char → Option (List Char × List Char)
  | [] => none
  | x :: xs =>
    if x = c then some ([], xs)
    else match splitFirstChar c xs with
      | none => none
      | some (a, b) => some (x :: a, b)

/-- Python `s.split(c)` (full split, keeps empty components). -/
def splitAllChar (c : Char) : List Char → List (List Char)
  | [] => [[]]
  | x :: xs =>
    if x = c then [] :: splitAllChar c xs
    else match splitAllChar c xs with
      | t :: ts => (x :: t) :: ts
      | [] => [[x]]

/-- Python `s.split(c)` on strings. -/
def pySplitChar (s : String) (c : Char) : List String :=
  (splitAllChar c s.data).map String.mk

/-- Python `s.split(c, 1)`: at most one split, at the first occurrence. -/
def pySplit1 (s : String) (c : Char) : List String :=
  match splitFirstChar c s.data with
  | none => [s]
  | some (a, b) => [String.mk a, String.mk b]

/-- Modelled from the spec: helper `strip_empty_str_in_list` comes from the
helper module of the repository, which is not included under `src/`; per the spec's
extension-component comparison ("compares extension component lists") it drops
empty strings from a list. -/
def strip_empty_str_in_list (l : List String) : List String :=
  l.filter (fun s => s ≠ "")

/-- Modelled from the spec: helper `str_to_list` comes from the helper module of the
repository, which is not included under `src/`; per the path
decomposition of the spec ("splitting on path separators") it splits a path string on the
path separator, dropping empty components. -/
def str_to_list (s : String) : List String :=
  strip_empty_str_in_list (pySplitChar s '/')

/-- Model of `os.path.sep.join` for relative-path segment lists. -/
def sepJoin (l : List String) : String := String.intercalate ("/") l

/-- Model of `os.path.join(a, b)` for an absolute `a` (not ending in the
separator) and relative `b`. -/
def pathJoin (a b : String) : String :=
  if b = "" then a ++ ("/") else a ++ ("/") ++ b

/-- Model of `re.match(tag + "-[a-zA-Z0-9]+", s) is not None`: a prefix match
succeeds exactly when `s` starts with `tag ++ "-"` followed by at least one
ASCII alphanumeric character (the trailing `+` and any `.*` tail put no
further constraint on a prefix match). -/
def prefixAlnum (tag s : String) : Bool :=
  (List.take (tag.data.length + 1) s.data == tag.data ++ ['-']) &&
  (match List.drop (tag.data.length + 1) s.data with
   | c :: _ => c.isAlphanum
   | [] => false)

/-- `re.match(r'sub-[a-zA-Z0-9]+', s)` succeeds. -/
def isSubjectName (s : String) : Bool := prefixAlnum ("sub") s

/-- `re.match(r'ses-[a-zA-Z0-9]+', s)` succeeds. -/
def isSessionName (s : String) : Bool := prefixAlnum ("ses") s

/-- `re.match(r'sub-[a-zA-Z0-9]+(_ses-[a-zA-Z0-9]+)?.*', s)` succeeds; the
optional group and the `.*` tail are unconstrained in a prefix match, so this
is again exactly a `sub-<alnum>` prefix test. -/
def isBidsFilename (s : String) : Bool := prefixAlnum ("sub") s

/-! ## Data model (`dataset.py` dataclasses) -/

/-- `FileItem` dataclass: one catalogued file. -/
structure FileItem where
  subject : String
  session : Option String
  modal : Option String
  annotation : Option String
  absdir : String
  filename : String
  fileext : String
deriving DecidableEq

/-- Projection of the reserved fourth `FileItem` field (the one the
constructor fills with the last path segment of the scan root). -/
def fannot : FileItem → Option String
  | ⟨_, _, _, a, _, _, _⟩ => a

/-- Python `f"{self.filename}.{self.fileext}"`. -/
def FileItem.basename (f : FileItem) : String := f.filename ++ (".") ++ f.fileext

/-- Python `os.path.join(self.absdir, self.basename)`. -/
def FileItem.abspath (f : FileItem) : String := pathJoin f.absdir f.basename

/-- `FileItem.has_ext`: extension equality by comparing dot-separated
component lists with empty components stripped. -/
def FileItem.has_ext (f : FileItem) (ext : String) : Bool :=
  strip_empty_str_in_list (pySplitChar f.fileext '.') ==
    strip_empty_str_in_list (pySplitChar ext '.')

/-- The `files` attribute of a `SessionItem`: either a plain list (flat
datasets) or an insertion-ordered mapping modality name → file list. -/
inductive SessFiles where
  | flat (l : List FileItem)
  | bymodal (d : List (String × List FileItem))
deriving DecidableEq

/-- `SessionItem` dataclass: one (subject, session) aggregate. -/
structure SessionItem where
  subject : String
  session : Option String
  files : SessFiles
deriving DecidableEq

/-- `MaxDepthRef` dataclass. -/
structure MaxDepthRef where
  single_session : Nat
  multi_session : Nat
deriving DecidableEq

/-- The `list` property of `MaxDepthRef`. -/
def MaxDepthRef.depthList (r : MaxDepthRef) : List Nat :=
  [r.single_session, r.multi_session]

/-- `DataItem` dataclass: depth → (relative path → entry names). -/
structure DataItem where
  by_depth : List (Nat × List (String × List String))
deriving DecidableEq

/-- `Inherits` dataclass (the CarryOver bundle). -/
structure Inherits where
  subjects : Option (List String)
  sessions : Option (List String)
  modal : Option (List String)
  file_list : List FileItem
  session_list : List SessionItem
deriving DecidableEq

/-! ## FilterEngine (`BaseParser._filter` / `BaseParser._session_filter`) -/

/-- A Python value of type `Union[List[str], str, None]`. -/
inductive PyStrs where
  | pynone
  | str (s : String)
  | list (l : List String)
deriving DecidableEq

/-- Python truthiness of such a value (`if subject:` is false for `None`,
`""` and `[]`). -/
def PyStrs.truthy : PyStrs → Bool
  | .pynone => false
  | .str s => !(s == "")
  | .list l => !l.isEmpty

/-- The value after `if isinstance(x, str): x = [x]`. -/
def PyStrs.norm : PyStrs → List String
  | .pynone => []
  | .str s => [s]
  | .list l => l

/-- Python truthiness of an `Optional[str]`. -/
def optStrTruthy : Option String → Bool
  | none => false
  | some s => !(s == "")

/-- Python `x in values` for a string attribute. -/
def inStrs (values : List String) (s : String) : Bool := values.contains s

/-- Python `x in values` for an `Optional[str]` attribute (`None` is never a
member of a list of strings). -/
def inStrsOpt (values : List String) : Option String → Bool
  | some s => values.contains s
  | none => false

/-- The keyword arguments of `filter` / `_filter`. -/
structure FilterArgs where
  subject : PyStrs
  session : PyStrs
  modal : PyStrs
  annotation : PyStrs
  regex : Option String
  regexIgnore : Option String
  ext : Option String
deriving DecidableEq

/-- Projection of the fourth filter argument. -/
def aannot : FilterArgs → PyStrs
  | ⟨_, _, _, a, _, _, _⟩ => a

/-- `filter()` with no predicates. -/
def noArgs : FilterArgs := ⟨.pynone, .pynone, .pynone, .pynone, none, none, none⟩

/-- Filtering the file collection of one session by a per-record test: a flat
list is filtered directly, a modality map bucket-wise (this is the shape of
every `sess.files = ...` comprehension in `_session_filter`). -/
def filterFiles (p : FileItem → Bool) : SessFiles → SessFiles
  | .flat l => .flat (l.filter p)
  | .bymodal d => .bymodal (d.map (fun mv => (mv.1, mv.2.filter p)))

/-- The final step of the `_session_filter` loop body: drop modality buckets
left empty (`if isinstance(sess.files, dict): sess.files = {k:v ... if len(v)}`);
flat file lists are left alone. -/
def pruneEmpty : SessFiles → SessFiles
  | .bymodal d => .bymodal (d.filter (fun mv => !mv.2.isEmpty))
  | .flat l => .flat l

/-- Loop body of `_session_filter` for one (copied) session: the successive
conditional reassignments of `sess.files`, in source order (modal, annotation,
regex, regex_ignore, ext, empty-bucket pruning). -/
def sessTransform (rmatch : String → String → Bool) (a : FilterArgs)
    (s : SessionItem) : SessionItem :=
  let fs := s.files
  let fs := if a.modal.truthy then
      filterFiles (fun f => inStrsOpt a.modal.norm f.modal) fs else fs
  let fs := if (aannot a).truthy then
      filterFiles (fun f => inStrsOpt (aannot a).norm (fannot f)) fs else fs
  let fs := if optStrTruthy a.regex then
      filterFiles (fun f => rmatch (a.regex.getD ("")) f.filename) fs else fs
  let fs := if optStrTruthy a.regexIgnore then
      filterFiles (fun f => !(rmatch (a.regexIgnore.getD ("")) f.filename)) fs else fs
  let fs := if optStrTruthy a.ext then
      filterFiles (fun f => f.has_ext (a.ext.getD (""))) fs else fs
  ⟨s.subject, s.session, pruneEmpty fs⟩

/-- `BaseParser._session_filter` (value content: the list of copies,
each transformed in place by the loop). -/
def session_filter (rmatch : String → String → Bool) (a : FilterArgs)
    (session_list : List SessionItem) : List SessionItem :=
  session_list.map (sessTransform rmatch a)

/-- `BaseParser._filter`: the flat-list predicate chain in source order
(subject, session, modal, annotation, ext, regex, regex_ignore), the
subject/session pruning of the session list, then `_session_filter`. -/
def filterLists (rmatch : String → String → Bool)
    (file_list : List FileItem) (session_list : List SessionItem)
    (a : FilterArgs) : List FileItem × List SessionItem :=
  let fl := file_list
  let sl := session_list
  let fl := if a.subject.truthy then
      fl.filter (fun f => inStrs a.subject.norm f.subject) else fl
  let sl := if a.subject.truthy then
      sl.filter (fun s => inStrs a.subject.norm s.subject) else sl
  let fl := if a.session.truthy then
      fl.filter (fun f => inStrsOpt a.session.norm f.session) else fl
  let sl := if a.session.truthy then
      sl.filter (fun s => inStrsOpt a.session.norm s.session) else sl
  let fl := if a.modal.truthy then
      fl.filter (fun f => inStrsOpt a.modal.norm f.modal) else fl
  let fl := if (aannot a).truthy then
      fl.filter (fun f => inStrsOpt (aannot a).norm (fannot f)) else fl
  let fl := if optStrTruthy a.ext then
      fl.filter (fun f => f.has_ext (a.ext.getD (""))) else fl
  let fl := if optStrTruthy a.regex then
      fl.filter (fun f => rmatch (a.regex.getD ("")) f.filename) else fl
  let fl := if optStrTruthy a.regexIgnore then
      fl.filter (fun f => !(rmatch (a.regexIgnore.getD ("")) f.filename)) else fl
  (fl, session_filter rmatch a sl)

/-! ### Heap model of `_session_filter`

To express that filtering never mutates the `SessionItem` objects of the caller,
`_session_filter` is also given in store-passing style: the heap is a list of
`SessionItem` objects addressed by index, `copy(s)` allocates a fresh address
holding the same value, and each `sess.files = ...` reassignment becomes an
update at the fresh address only. -/

/-- Object store of `SessionItem`s, addressed by position. -/
abbrev Heap := List SessionItem

/-- Dereference an address. -/
def heapGet (h : Heap) (a : Nat) : SessionItem := h.getD a ⟨"", none, .flat []⟩

/-- The list comprehension `[copy(s) for s in session_list]`: allocates one
fresh copy per input address, returning the grown heap and the new addresses. -/
def copySessions (h : Heap) (addrs : List Nat) : Heap × List Nat :=
  addrs.foldl (fun st a => (st.1 ++ [heapGet st.1 a], st.2 ++ [st.1.length])) (h, [])

/-- Heap-level `_session_filter`: copy every session, then run the filtering
loop body on each copy in place. -/
def session_filter_heap (rmatch : String → String → Bool) (a : FilterArgs)
    (h : Heap) (addrs : List Nat) : Heap × List Nat :=
  let st := copySessions h addrs
  (st.2.foldl (fun hh ad => hh.set ad (sessTransform rmatch a (heapGet hh ad))) st.1,
   st.2)

/-! ## PathWalker (`BaseParser._init_process` / `_parse_all`) -/

/-- Abstract filesystem: a directory holds named subdirectories (in the order
the OS would yield them) and a list of file names. -/
inductive FSTree where
  | node (dirs : List (String × FSTree)) (files : List String)

/-- One `os.walk` triple, with the directory path relative to the scan root. -/
structure WalkEntry where
  rel : List String
  dirnames : List String
  filenames : List String

mutual
/-- Pre-order `os.walk` over the abstract filesystem. -/
def walkEntries : FSTree → List String → List WalkEntry
  | .node dirs files, rel =>
    ⟨rel, dirs.map Prod.fst, files⟩ :: walkChildren dirs rel

/-- Walks the children of a directory in order. -/
def walkChildren : List (String × FSTree) → List String → List WalkEntry
  | [], _ => []
  | (n, t) :: rest, rel => walkEntries t (rel ++ [n]) ++ walkChildren rest rel
end

/-- The three products of `_parse_all`. -/
structure ParseState where
  max_depth : Nat
  files_by_depth : List (Nat × List (String × List String))
  dirs_by_depth : List (Nat × List (String × List String))
deriving DecidableEq

/-- `xxx_by_depth[depth][key] = value` with lazy creation of the depth level. -/
def bdSet (bd : List (Nat × List (String × List String))) (depth : Nat)
    (key : String) (v : List String) : List (Nat × List (String × List String)) :=
  match dget bd depth with
  | none => bd ++ [(depth, [(key, v)])]
  | some d => dset bd depth (dset d key v)

/-- `BaseParser._parse_all` with `dir_only = False` (the façades never set it):
leaf directories only bump `max_depth`; non-leaf directories record their
sorted child names at their own depth; directories with files record their
sorted file names at their own depth. -/
def parse_all (fs : FSTree) : ParseState :=
  (walkEntries fs []).foldl
    (fun st e =>
      let depth := e.rel.length
      let st :=
        if e.dirnames.isEmpty then
          if decide (st.max_depth < depth) then
            ⟨depth, st.files_by_depth, st.dirs_by_depth⟩
          else st
        else
          ⟨st.max_depth, st.files_by_depth,
            bdSet st.dirs_by_depth depth (sepJoin e.rel) (sortLt strLt e.dirnames)⟩
      if !e.filenames.isEmpty then
        ⟨st.max_depth,
          bdSet st.files_by_depth depth (sepJoin e.rel) (sortLt strLt e.filenames),
          st.dirs_by_depth⟩
      else st)
    ⟨0, [], []⟩

/-! ## Validator (`BaseParser._validator`) -/

/-- The `ValueError` message of the depth check, naming the observed depth and
both accepted depths. -/
def depthMsg (max_depth : Nat) (ref : MaxDepthRef) : String :=
  "Invalid dataset depth: " ++ toString max_depth ++
    ". Expected depth is " ++ toString ref.single_session ++
    " for single session or " ++ toString ref.multi_session ++
    " for multi session dataset."

/-- The exclusion loop of `_validator`, exactly as written: it walks the
original name list with its precomputed match flags, warns about the entries
whose flag is TRUE (the inverted condition in the source), and re-filters the
current (already shrunken) list by positional flag on every iteration.
Returns (warned names, final name list). -/
def excludeLoop (orig : List String) (isOk : List Bool) : List String × List String :=
  (List.range orig.length).foldl
    (fun st i =>
      (if isOk.getD i false then st.1 ++ [orig.getD i ("")] else st.1,
       (st.2.enum.filter (fun p => isOk.getD p.1 false)).map Prod.snd))
    ([], orig)

/-- Name validation against a pattern: when every name matches nothing
happens, otherwise the exclusion loop runs. -/
def nameCheck (pat : String → Bool) (names : List String) :
    List String × List String :=
  let isOk := names.map pat
  if isOk.all (fun b => b) then ([], names) else excludeLoop names isOk

/-- Python `sorted(list(set(l)))`. -/
def dedupSort (l : List String) : List String := sortLt strLt l.eraseDups

/-- `BaseParser._validator`.  Returns (warned names, subjects, sessions,
modals); raises `ValueError` on a bad depth and `KeyError` on missing
dictionary levels, in source order (depth check, subjects, sessions, file
names, modals). -/
def validator (dirs files : DataItem) (max_depth : Nat) (ref : MaxDepthRef)
    (modal : Bool) (dir_only : Bool) :
    Except PyErr (List String × List String × Option (List String) × Option (List String)) := do
  if !(ref.depthList.contains max_depth) then
    throw (PyErr.valueError (depthMsg max_depth ref))
  let d0 ← match dget dirs.by_depth 0 with
    | some d => pure d
    | none => throw (PyErr.keyError (toString 0))
  let roots ← match dget d0 "" with
    | some r => pure r
    | none => throw (PyErr.keyError (""))
  let subjects0 := sortLt strLt roots
  let subjRes := nameCheck isSubjectName subjects0
  let sessRes ←
    if max_depth = ref.multi_session then
      match dget dirs.by_depth ref.multi_session with
      | none => throw (PyErr.keyError (toString ref.multi_session))
      | some dd =>
        let sess0 := dedupSort ((dd.map Prod.snd).flatten)
        let r := nameCheck isSessionName sess0
        pure (r.1, some r.2)
    else pure ([], none)
  let fileWarns ←
    if !dir_only then
      match dget files.by_depth max_depth with
      | none => throw (PyErr.keyError (toString max_depth))
      | some fd =>
        let filenames := sortLt strLt ((fd.map Prod.snd).flatten)
        let bad := filenames.filter (fun f => !isBidsFilename f)
        if !bad.isEmpty then
          pure ((fd.map (fun kv => kv.2.map (fun fn => pathJoin kv.1 fn))).flatten)
        else pure ([])
    else pure ([])
  let modals ←
    if modal then
      match dget dirs.by_depth (max_depth - 1) with
      | none => throw (PyErr.keyError (toString (max_depth - 1)))
      | some dd => pure (some (dedupSort ((dd.map Prod.snd).flatten)))
    else pure none
  return (subjRes.1 ++ sessRes.1 ++ fileWarns, subjRes.2, sessRes.2, modals)

/-! ## Constructor (`BaseParser._constructor`) -/

/-- The Python local variable `modal` of `_constructor`: it starts as the
boolean flag and is rebound to a modality string or `None` in every loop
iteration. -/
inductive PyModal where
  | bool (b : Bool)
  | pynone
  | str (s : String)
deriving DecidableEq

/-- Python truthiness of that variable. -/
def PyModal.truthy : PyModal → Bool
  | .bool b => b
  | .pynone => false
  | .str s => !(s == "")

/-- The value stored into `FileItem.modal` (after the metadata parse the
variable is always a string or `None`). -/
def PyModal.toOpt : PyModal → Option String
  | .str s => some s
  | .bool _ => none
  | .pynone => none

/-- Python `f"{subj}-{sess}"` (a `None` session renders as "None"). -/
def taskIdOf (subj : String) (sess : Option String) : String :=
  subj ++ ("-") ++ (match sess with | some s => s | none => "None")

/-- Metadata decomposition of one relative path key at max depth
(the `if/elif/else` at the top of the `_constructor` loop), including the
structural `ValueError` of the final `else` branch and the unpacking errors. -/
def parseMeta (max_depth : Nat) (ref : MaxDepthRef) (mv : PyModal)
    (sess_path : String) : Except PyErr (String × Option String × PyModal) :=
  let parts := str_to_list sess_path
  if max_depth = ref.single_session then
    if mv.truthy then
      match parts with
      | [a, b] => .ok (a, none, .str b)
      | _ => .error (PyErr.valueError ("unpack"))
    else
      match parts with
      | a :: _ => .ok (a, none, .pynone)
      | [] => .error PyErr.indexError
  else if max_depth = ref.multi_session then
    if mv.truthy then
      match parts with
      | [a, b, c] => .ok (a, some b, .str c)
      | _ => .error (PyErr.valueError ("unpack"))
    else
      match parts with
      | [a, b] => .ok (a, some b, .pynone)
      | _ => .error (PyErr.valueError ("unpack"))
  else .error (PyErr.valueError (depthMsg max_depth ref))

/-- The comprehension-plus-`[0]` lookup of an existing `SessionItem` by
subject and session: the position of the first list element whose subject and
session both match (`none` models the `IndexError` of `[...][0]` on an empty
comprehension). -/
def findSessIdx (sl : List SessionItem) (subj : String) (sess : Option String) :
    Option Nat :=
  match sl with
  | [] => none
  | s :: rest =>
    if s.subject == subj && s.session == sess then some 0
    else (findSessIdx rest subj sess).map (fun n => n + 1)

/-- Element of a session list at an index (the looked-up `sinfo` alias). -/
def sgetD (sl : List SessionItem) (i : Nat) : SessionItem :=
  sl.getD i ⟨"", none, .flat []⟩

/-- Appending one `FileItem` to the file collection of a session: modality-keyed
when the `modal` variable is truthy (creating the bucket lazily), plain append
otherwise.  A shape mismatch models the `TypeError` Python would raise. -/
def addFile (mv : PyModal) (fi : FileItem) : SessFiles → Except PyErr SessFiles
  | .bymodal d =>
    if mv.truthy then
      match mv with
      | .str m =>
        match dget d m with
        | some fs => .ok (.bymodal (dset d m (fs ++ [fi])))
        | none => .ok (.bymodal (d ++ [(m, [fi])]))
      | _ => .error PyErr.typeError
    else .error PyErr.typeError
  | .flat l =>
    if mv.truthy then .error PyErr.typeError
    else .ok (.flat (l ++ [fi]))

/-- Sort key `(x.filename, x.fileext)`. -/
def fileKeyLt (a b : FileItem) : Bool :=
  strLt a.filename b.filename ||
    (a.filename == b.filename && strLt a.fileext b.fileext)

/-- Comparison of optional strings (total stand-in for the Python comparison,
which only ever sees two `None`s or two strings here). -/
def optStrLt : Option String → Option String → Bool
  | none, none => false
  | none, some _ => true
  | some _, none => false
  | some a, some b => strLt a b

/-- Sort key `(x.modal, x.filename, x.fileext)`. -/
def modalFileKeyLt (a b : FileItem) : Bool :=
  optStrLt a.modal b.modal ||
    (a.modal == b.modal && fileKeyLt a b)

/-- Sort key `(x.subject, x.session)`. -/
def sessKeyLt (a b : SessionItem) : Bool :=
  strLt a.subject b.subject ||
    (a.subject == b.subject && optStrLt a.session b.session)

/-- Sort key `(x.subject, x.session, x.modal, x.filename, x.fileext)`. -/
def fileFullKeyLt (a b : FileItem) : Bool :=
  strLt a.subject b.subject ||
    (a.subject == b.subject &&
      (optStrLt a.session b.session ||
        (a.session == b.session && modalFileKeyLt a b)))

/-- The per-path post-loop sort of the file collection of the current session:
`sinfo.files[modal] = sorted(..., key=(filename, fileext))` in the modality
case, `sinfo.files = sorted(..., key=(modal, filename, fileext))` otherwise. -/
def sortSessFiles (mv : PyModal) : SessFiles → Except PyErr SessFiles
  | .bymodal d =>
    if mv.truthy then
      match mv with
      | .str m =>
        match dget d m with
        | some fs => .ok (.bymodal (dset d m (sortLt fileKeyLt fs)))
        | none => .error (PyErr.keyError m)
      | _ => .error PyErr.typeError
    else .error PyErr.typeError
  | .flat l =>
    if mv.truthy then .error PyErr.typeError
    else .ok (.flat (sortLt modalFileKeyLt l))

/-- Loop state of `_constructor`: the `processed` key list, the two lists
under construction, and the rebindable `modal` variable. -/
structure CState where
  processed : List String
  session_list : List SessionItem
  file_list : List FileItem
  modalVar : PyModal
deriving DecidableEq

/-- The body of the inner `for f in filenames` loop: split the file name on
the first dot (unpacking error when there is no dot), build the `FileItem`
(the fourth field holds the last path segment of the scan root, with
`IndexError` when the root path list is empty), and append it to the
collection of the current session and to the
flat list. -/
def fileStep (absPath : String) (absPathList : List String) (sess_path : String)
    (subj : String) (sess : Option String) (mv : PyModal) (idx : Nat)
    (st : List SessionItem × List FileItem) (f : String) :
    Except PyErr (List SessionItem × List FileItem) := do
  let fnfe ← match pySplit1 f '.' with
    | [a, b] => pure (a, b)
    | _ => throw (PyErr.valueError ("unpack"))
  let rootLast ← match absPathList.getLast? with
    | some r => pure r
    | none => throw PyErr.indexError
  let fi : FileItem :=
    ⟨subj, sess, mv.toOpt, some rootLast, pathJoin absPath sess_path, fnfe.1, fnfe.2⟩
  let s0 := sgetD st.1 idx
  let fs' ← addFile mv fi s0.files
  pure (st.1.set idx ⟨s0.subject, s0.session, fs'⟩, st.2 ++ [fi])

/-- The body of the outer `for sess_path, filenames` loop of `_constructor`. -/
def entryStep (absPath : String) (absPathList : List String) (max_depth : Nat)
    (ref : MaxDepthRef) (st : CState) (e : String × List String) :
    Except PyErr CState := do
  let meta ← parseMeta max_depth ref st.modalVar e.1
  let subj := meta.1
  let sess := meta.2.1
  let mv := meta.2.2
  let tid := taskIdOf subj sess
  let start ←
    if st.processed.contains tid then
      match findSessIdx st.session_list subj sess with
      | some i => pure (st.session_list, st.processed, i)
      | none => throw PyErr.indexError
    else
      pure (st.session_list ++
              [⟨subj, sess, if mv.truthy then .bymodal [] else .flat []⟩],
            st.processed ++ [tid], st.session_list.length)
  let lists ← e.2.foldlM (fileStep absPath absPathList e.1 subj sess mv start.2.2)
    (start.1, st.file_list)
  let s0 := sgetD lists.1 start.2.2
  let fs' ← sortSessFiles mv s0.files
  pure ⟨start.2.1, lists.1.set start.2.2 ⟨s0.subject, s0.session, fs'⟩, lists.2, mv⟩

/-- `BaseParser._constructor`: iterate over the relative paths recorded at max
depth (`KeyError` when that depth level is missing), then sort the session
list by (subject, session) and the flat file list by
(subject, session, modal, filename, fileext). -/
def constructor (files : DataItem) (ref : MaxDepthRef) (modal : Bool)
    (max_depth : Nat) (absPathList : List String) (absPath : String) :
    Except PyErr (List SessionItem × List FileItem) := do
  let entries ← match dget files.by_depth max_depth with
    | some d => pure d
    | none => throw (PyErr.keyError (toString max_depth))
  let st ← entries.foldlM (entryStep absPath absPathList max_depth ref)
    ⟨[], [], [], .bool modal⟩
  return (sortLt sessKeyLt st.session_list, sortLt fileFullKeyLt st.file_list)

/-! ## Dataset façades (`RawDataset` / `StepDataset`)

`__init__` always runs `parse()` (the disk walk) on the given path; then
optionally `_validate()` (note: the source assigns
`self.sessions, self.subjects, self.modals = self._validator(...)` although
`_validator` returns `(subjects, sessions, modals)` — the first two attributes
are swapped); then either `_inherits(inherits)` or `_construct()`.
`os.path.abspath` is modelled as the identity on an already-absolute path. -/

/-- The observable attributes of a façade instance. -/
structure Facade where
  max_depth : Nat
  files_by_depth : List (Nat × List (String × List String))
  dirs_by_depth : List (Nat × List (String × List String))
  subjects : Option (List String)
  sessions : Option (List String)
  modals : Option (List String)
  file_list : List FileItem
  session_list : List SessionItem
  abs_path : String
  abs_path_list : List String
deriving DecidableEq

/-- Shared façade construction, parameterized by the `MaxDepthRef` and the
modality flag (`⟨2, 3⟩`/`true` for `RawDataset`, `⟨1, 2⟩`/`false` for
`StepDataset`).  `fs` is the filesystem found at the path at call time. -/
def facadeInit (ref : MaxDepthRef) (modal : Bool) (fs : FSTree) (path : String)
    (validate : Bool) (inh : Option Inherits) : Except PyErr Facade := do
  let apl := str_to_list path
  let ps := parse_all fs
  let va ←
    if validate then do
      let v ← validator ⟨ps.dirs_by_depth⟩ ⟨ps.files_by_depth⟩ ps.max_depth ref
        modal false
      pure (v.2.2.1, some v.2.1, v.2.2.2)
    else pure (none, none, none)
  match inh with
  | some i =>
    return ⟨ps.max_depth, ps.files_by_depth, ps.dirs_by_depth,
      i.subjects, i.sessions, i.modal, i.file_list, i.session_list, path, apl⟩
  | none =>
    let c ← constructor ⟨ps.files_by_depth⟩ ref modal ps.max_depth apl path
    return ⟨ps.max_depth, ps.files_by_depth, ps.dirs_by_depth,
      va.1, va.2.1, va.2.2, c.2, c.1, path, apl⟩

/-- `RawDataset.__init__`. -/
def RawDataset.init (fs : FSTree) (path : String) (validate : Bool)
    (inh : Option Inherits) : Except PyErr Facade :=
  facadeInit ⟨2, 3⟩ true fs path validate inh

/-- `StepDataset.__init__`. -/
def StepDataset.init (fs : FSTree) (path : String) (validate : Bool)
    (inh : Option Inherits) : Except PyErr Facade :=
  facadeInit ⟨1, 2⟩ false fs path validate inh

/-- `RawDataset.filter`: runs `_filter` on the in-memory indexes, wraps the
results in an `Inherits` bundle, and constructs a new `RawDataset` on
`self.path` with `validate=False` — which re-parses whatever filesystem
(`fsNow`) is at that path at filter time. -/
def RawDataset.filter (rmatch : String → String → Bool) (fsNow : FSTree)
    (fac : Facade) (a : FilterArgs) : Except PyErr Facade :=
  let r := filterLists rmatch fac.file_list fac.session_list a
  RawDataset.init fsNow fac.abs_path false
    (some ⟨fac.subjects, fac.sessions, fac.modals, r.1, r.2⟩)

/-! ## Concrete trees used by the claims -/

/-- The two-file BIDS tree of the end-to-end scenario:
`data/sub-01/ses-01/anat/sub-01_ses-01_T1w.nii.gz` and
`data/sub-02/ses-01/anat/sub-02_ses-01_T1w.nii.gz`. -/
def fsC1 : FSTree :=
  .node [("sub-01", .node [("ses-01", .node [("anat",
            .node [] ["sub-01_ses-01_T1w.nii.gz"])] [])] []),
         ("sub-02", .node [("ses-01", .node [("anat",
            .node [] ["sub-02_ses-01_T1w.nii.gz"])] [])] [])] []

/-- A flat (processing-step) tree whose depth-0 directories are
`sub-01`, `sub-02` and `junk`, each holding one file. -/
def fsC3 : FSTree :=
  .node [("sub-01", .node [] ["sub-01_a.nii"]),
         ("sub-02", .node [] ["sub-02_a.nii"]),
         ("junk", .node [] ["junkfile.nii"])] []

/-- A valid single-session modality-bearing tree:
`data/sub-01/anat/sub-01_T1w.nii.gz`. -/
def fsC4 : FSTree :=
  .node [("sub-01", .node [("anat", .node [] ["sub-01_T1w.nii.gz"])] [])] []

/-- An empty directory (for example the scan root after deletion of its
contents between construction and filtering). -/
def fsEmpty : FSTree := .node [] []

/-- A tree whose deepest leaf directory sits at depth 4 and holds no files:
`data/sub-01/a/b/c/`. -/
def fsC6 : FSTree :=
  .node [("sub-01", .node [("a", .node [("b", .node [("c",
            .node [] [])] [])] [])] [])] []

/-! ## C1 -/

/-- C1: the claim states that constructing a `RawDataset` (validate=true) on
the two-file tree yields max depth 3, subjects `["sub-01","sub-02"]`,
sessions `["ses-01"]`, modalities `["anat"]` and the stated filter results.
The code instead fails outright: for a multi-session tree the validator looks
up session directory names at `dirs.by_depth[ref.multi_session]` (= 3), but
session names are recorded at the depth of their parent directories (= 1), so
construction raises `KeyError: 3` and no façade exists. -/
theorem claim1_end_to_end_construction :
    RawDataset.init fsC1 ("/data") true none =
      .error (PyErr.keyError (toString 3)) := by
  decide

/-! ## C3 -/

/-- C3: the claim states that validation warns about (only) the non-matching
name `junk` and that the validated subject list is exactly
`["sub-01","sub-02"]`.  The exclusion loop of the source warns under the inverted
condition and re-filters the shrinking list by stale positional flags, so on
the sorted input `["junk","sub-01","sub-02"]` it warns about `sub-01` and
`sub-02` (not `junk`) and ends with an empty subject list; the third part of
the claim does hold — the file under `junk` still reaches the unfiltered flat
file list (first component below), and the façade stores the empty validated
list in `sessions` (swapped assignment) while `subjects` is the validator's
session result `None`. -/
theorem claim3_naming_exclusion :
    nameCheck isSubjectName (sortLt strLt ["sub-01", "sub-02", "junk"]) =
      (["sub-01", "sub-02"], []) ∧
    (StepDataset.init fsC3 ("/data") true none).map
        (fun fac => (fac.file_list.map (fun f => f.subject),
                     fac.sessions, fac.subjects)) =
      .ok (["junk", "sub-01", "sub-02"], some [], none) := by
  constructor
  · decide
  · decide

/-! ## Generic helper lemmas -/

theorem except_bind_ok (x : α) (f : α → Except ε β) :
    (Except.ok x >>= f : Except ε β) = f x := rfl

theorem except_bind_err (e : ε) (f : α → Except ε β) :
    (Except.error e >>= f : Except ε β) = Except.error e := rfl

theorem except_throw_bind (e : ε) (f : α → Except ε β) :
    ((throw e : Except ε α) >>= f) = Except.error e := rfl

theorem except_pure_bind (x : α) (f : α → Except ε β) :
    ((pure x : Except ε α) >>= f) = f x := rfl

theorem insertLt_perm (lt : α → α → Bool) (x : α) (l : List α) :
    (insertLt lt x l).Perm (x :: l) := by
  induction l with
  | nil => exact List.Perm.refl _
  | cons y ys ih =>
    unfold insertLt
    by_cases h : lt y x = true
    · rw [if_pos h]
      exact (ih.cons y).trans (List.Perm.swap x y ys)
    · rw [if_neg h]

theorem sortLt_perm (lt : α → α → Bool) (l : List α) : (sortLt lt l).Perm l := by
  induction l with
  | nil => exact List.Perm.refl _
  | cons x xs ih => exact (insertLt_perm lt x (sortLt lt xs)).trans (ih.cons x)

theorem flatten_perm {l₁ l₂ : List (List α)} (h : l₁.Perm l₂) :
    l₁.flatten.Perm l₂.flatten := by
  induction h with
  | nil => exact List.Perm.refl _
  | cons x _ ih => simpa using ih.append_left x
  | swap x y l =>
    simp only [List.flatten_cons, ← List.append_assoc]
    exact (List.perm_append_comm).append_right l.flatten
  | trans _ _ ih₁ ih₂ => exact ih₁.trans ih₂

/-- Permutation juggling: a chunk appended in the middle can move to the end. -/
theorem append_rot_perm (A ex B : List α) : ((A ++ ex) ++ B).Perm ((A ++ B) ++ ex) := by
  rw [List.append_assoc, List.append_assoc]
  exact List.Perm.append_left A List.perm_append_comm

/-- A list-invariant survives an `Except`-valued left fold. -/
theorem foldlM_inv {α β : Type} (P : β → Prop) {f : β → α → Except PyErr β} :
    ∀ {l : List α} {b r : β},
      (∀ b x b', x ∈ l → f b x = .ok b' → P b → P b') →
      List.foldlM f b l = .ok r → P b → P r := by
  intro l
  induction l with
  | nil => intro b r _ hfold hb; simp only [List.foldlM_nil] at hfold; cases hfold; exact hb
  | cons x xs ih =>
    intro b r H hfold hb
    rw [List.foldlM_cons] at hfold
    cases hstep : f b x with
    | error e => rw [hstep, except_bind_err] at hfold; cases hfold
    | ok b' =>
      rw [hstep, except_bind_ok] at hfold
      exact ih (fun c y c' hy => H c y c' (List.mem_cons_of_mem x hy))
        hfold (H b x b' (List.mem_cons_self x xs) hstep hb)

/-- Every element of the list was processed successfully from some state when
an `Except`-valued left fold succeeds. -/
theorem foldlM_ok_forall {α β : Type} {f : β → α → Except PyErr β} :
    ∀ {l : List α} {b r : β}, List.foldlM f b l = .ok r →
      ∀ x ∈ l, ∃ b₁ b₂, f b₁ x = .ok b₂ := by
  intro l
  induction l with
  | nil => intro b r _ x hx; cases hx
  | cons y ys ih =>
    intro b r hfold x hx
    rw [List.foldlM_cons] at hfold
    cases hstep : f b y with
    | error e => rw [hstep, except_bind_err] at hfold; cases hfold
    | ok b' =>
      rw [hstep, except_bind_ok] at hfold
      rcases List.mem_cons.mp hx with rfl | hx'
      · exact ⟨b, b', hstep⟩
      · exact ih hfold x hx'

/-- A list-invariant survives a plain left fold. -/
theorem foldl_inv (P : β → Prop) {f : β → α → β} :
    ∀ {l : List α} {b : β}, (∀ b x, x ∈ l → P b → P (f b x)) → P b → P (l.foldl f b) := by
  intro l
  induction l with
  | nil => intro b _ hb; exact hb
  | cons x xs ih =>
    intro b H hb
    exact ih (fun c y hy => H c y (List.mem_cons_of_mem x hy))
      (H b x (List.mem_cons_self x xs) hb)

/-! ## C5: filtering never mutates pre-existing records -/

theorem copySessions_preserves (h : Heap) (addrs : List Nat) :
    h.length ≤ (copySessions h addrs).1.length ∧
    (∀ j, j < h.length → heapGet (copySessions h addrs).1 j = heapGet h j) ∧
    (∀ x ∈ (copySessions h addrs).2, h.length ≤ x) := by
  unfold copySessions
  have base : h.length ≤ (h, ([] : List Nat)).1.length ∧
      (∀ j, j < h.length → heapGet (h, ([] : List Nat)).1 j = heapGet h j) ∧
      (∀ x ∈ (h, ([] : List Nat)).2, h.length ≤ x) :=
    ⟨Nat.le_refl _, fun _ _ => rfl, fun x hx => by cases hx⟩
  refine foldl_inv
    (fun st : Heap × List Nat => h.length ≤ st.1.length ∧
      (∀ j, j < h.length → heapGet st.1 j = heapGet h j) ∧
      (∀ x ∈ st.2, h.length ≤ x))
    (fun st a _ ih => ⟨?_, ?_, ?_⟩) base
  · exact Nat.le_trans ih.1 (by simp)
  · intro j hj
    have hjlt : j < st.1.length := Nat.lt_of_lt_of_le hj ih.1
    rw [← ih.2.1 j hj]
    exact List.getD_append _ _ _ _ hjlt
  · intro x hx
    rcases List.mem_append.mp hx with hx | hx
    · exact ih.2.2 x hx
    · rcases List.mem_singleton.mp hx with rfl
      exact ih.1

/-- C5: the heap-level `_session_filter` never changes a pre-existing
`SessionItem` object: it copies each input session to a fresh address and
reassigns `files` only on the copies, so every address that existed before
the call still holds exactly the record it held before.  Together with the
fact that the flat `_filter` chain only builds new lists from unmodified
`FileItem` values (no attribute of a `FileItem` is ever assigned in the
source), the `file_list` and `session_list` of the source façade, every
`SessionItem` in it and every nested file collection are unchanged by
`filter(...)`. -/
theorem claim5_filter_never_mutates (rmatch : String → String → Bool)
    (a : FilterArgs) (h : Heap) (addrs : List Nat) (i : Nat)
    (hi : i < h.length) :
    heapGet (session_filter_heap rmatch a h addrs).1 i = heapGet h i := by
  unfold session_filter_heap
  have hcopy := copySessions_preserves h addrs
  have hfold : ∀ j, j < h.length →
      heapGet ((copySessions h addrs).2.foldl
        (fun hh ad => hh.set ad (sessTransform rmatch a (heapGet hh ad)))
        (copySessions h addrs).1) j = heapGet h j := by
    intro j hj
    have step : ∀ hh ad, ad ∈ (copySessions h addrs).2 →
        (∀ k, k < h.length → heapGet hh k = heapGet h k) →
        (∀ k, k < h.length →
          heapGet (hh.set ad (sessTransform rmatch a (heapGet hh ad))) k = heapGet h k) := by
      intro hh ad had ih k hk
      have hne : ad ≠ k :=
        fun hcontra => Nat.lt_irrefl k (Nat.lt_of_lt_of_le hk (hcontra ▸ hcopy.2.2 ad had))
      rw [← ih k hk]
      unfold heapGet
      rw [List.getD_eq_getElem?_getD, List.getElem?_set_ne hne,
        ← List.getD_eq_getElem?_getD]
    exact foldl_inv (fun hh : Heap => ∀ k, k < h.length → heapGet hh k = heapGet h k)
      (fun hh ad had ih => step hh ad had ih) hcopy.2.1 j hj
  exact hfold i hi

/-- C5 witness. -/
theorem claim5_filter_never_mutates_witness :
    0 < ([⟨("sub-01"), none, .flat []⟩] : Heap).length ∧
    heapGet (session_filter_heap (fun _ _ => false) noArgs
      [⟨("sub-01"), none, .flat []⟩] [0]).1 0 =
      heapGet [⟨("sub-01"), none, .flat []⟩] 0 :=
  ⟨by decide, claim5_filter_never_mutates (fun _ _ => false) noArgs
    [⟨("sub-01"), none, .flat []⟩] [0] 0 (by decide)⟩

/-! ## C4: filter and disk state -/

/-- C4 counterexample: the claim states that `filter(...)` performs no disk
I/O and that the returned façade is produced from the CarryOver bundle
without re-walking the directory tree.  In the source, `RawDataset.filter`
ends with `RawDataset(self.path, False, inherits)`, whose `__init__`
unconditionally re-runs the directory walk; filtering the same façade with
the directory contents deleted (respectively unchanged) yields a façade
whose `max_depth` is 0 (respectively 2), so the returned façade does depend
on the state of the filesystem at filter time. -/
theorem claim4_counterexample :
    ((RawDataset.init fsC4 ("/data") true none).bind
        (fun fac => RawDataset.filter (fun _ _ => false) fsEmpty fac noArgs)).map
      (fun g => g.max_depth) = .ok 0 ∧
    ((RawDataset.init fsC4 ("/data") true none).bind
        (fun fac => RawDataset.filter (fun _ _ => false) fsC4 fac noArgs)).map
      (fun g => g.max_depth) = .ok 2 := by
  constructor
  · decide
  · decide

/-- C4 (amended): `filter(...)` does re-walk the path (so the walk-derived
attributes of the new façade reflect the filesystem at filter time, as the
counterexample shows), but the `file_list` and `session_list` of the new façade
are adopted from the CarryOver bundle alone: whatever filesystem `fsNow` the
re-walk sees, they equal exactly the `_filter` output computed from the
in-memory indexes of the source façade and the filter arguments. -/
theorem claim4_lists_from_bundle (rmatch : String → String → Bool)
    (fsNow : FSTree) (fac : Facade) (a : FilterArgs) :
    (RawDataset.filter rmatch fsNow fac a).map
        (fun g => (g.file_list, g.session_list)) =
      .ok (filterLists rmatch fac.file_list fac.session_list a) := rfl

/-! ## Consistency of the two indexes (claims about flat vs session lists) -/

/-- All `FileItem`s of a file collection, in order (for a modality map:
bucket by bucket). -/
def sessFlattenF : SessFiles → List FileItem
  | .flat l => l
  | .bymodal d => (d.map Prod.snd).flatten

/-- All `FileItem`s nested in one `SessionItem`. -/
def sessFlatten (s : SessionItem) : List FileItem := sessFlattenF s.files

/-- All `FileItem`s nested in a session list. -/
def allFiles (sl : List SessionItem) : List FileItem :=
  (sl.map sessFlatten).flatten

/-- Every file nested in the session carries the own subject and
session identifiers. -/
def sessAgrees (s : SessionItem) : Prop :=
  ∀ f ∈ sessFlatten s, f.subject = s.subject ∧ f.session = s.session

/-- No two sessions share a (subject, session) pair. -/
def keyDistinct (sl : List SessionItem) : Prop :=
  (sl.map (fun s => (s.subject, s.session))).Nodup

/-- The mutual-consistency invariant of the two indexes: the files nested in
the session list are, up to order, exactly the flat file list; every nested
file agrees with the identifiers of its session; and sessions have pairwise
distinct (subject, session) keys. -/
def sameRecords (fl : List FileItem) (sl : List SessionItem) : Prop :=
  (allFiles sl).Perm fl ∧ (∀ s ∈ sl, sessAgrees s) ∧ keyDistinct sl

/-- No modality bucket of the collection is empty. -/
def sfNoEmpty : SessFiles → Bool
  | .flat _ => true
  | .bymodal d => d.all (fun p => !p.2.isEmpty)

theorem allFiles_append (sl₁ sl₂ : List SessionItem) :
    allFiles (sl₁ ++ sl₂) = allFiles sl₁ ++ allFiles sl₂ := by
  unfold allFiles
  rw [List.map_append, List.flatten_append]

theorem allFiles_cons (s : SessionItem) (sl : List SessionItem) :
    allFiles (s :: sl) = sessFlatten s ++ allFiles sl := rfl

theorem sgetD_mem {sl : List SessionItem} {i : Nat} (hi : i < sl.length) :
    sgetD sl i ∈ sl := by
  unfold sgetD
  rw [List.getD_eq_getElem?_getD, List.getElem?_eq_getElem hi]
  exact List.getElem_mem hi

theorem sgetD_cons_succ (s : SessionItem) (sl : List SessionItem) (i : Nat) :
    sgetD (s :: sl) (i + 1) = sgetD sl i := rfl

theorem sgetD_cons_zero (s : SessionItem) (sl : List SessionItem) :
    sgetD (s :: sl) 0 = s := rfl

theorem sgetD_set_self {sl : List SessionItem} {i : Nat} (hi : i < sl.length)
    (s' : SessionItem) : sgetD (sl.set i s') i = s' := by
  unfold sgetD
  rw [List.getD_eq_getElem?_getD, List.getElem?_set_self]
  · rfl
  · exact hi

theorem sgetD_snoc_self (sl : List SessionItem) (s : SessionItem) :
    sgetD (sl ++ [s]) sl.length = s := by
  unfold sgetD
  rw [List.getD_eq_getElem?_getD, List.getElem?_append_right (Nat.le_refl _)]
  simp

/-- Replacing the element at `i` by one with the same subject and session
leaves the key list unchanged. -/
theorem map_key_set (s' : SessionItem) {sl : List SessionItem} :
    ∀ {i : Nat}, i < sl.length →
      s'.subject = (sgetD sl i).subject → s'.session = (sgetD sl i).session →
      (sl.set i s').map (fun s => (s.subject, s.session)) =
        sl.map (fun s => (s.subject, s.session)) := by
  induction sl with
  | nil => intro i hlt _ _; exact absurd hlt (by simp)
  | cons s rest ih =>
    intro i hi h1 h2
    cases i with
    | zero =>
      simp only [List.set_cons_zero, List.map_cons]
      rw [sgetD_cons_zero] at h1 h2
      rw [h1, h2]
    | succ n =>
      simp only [List.set_cons_succ, List.map_cons]
      rw [sgetD_cons_succ] at h1 h2
      rw [ih (Nat.lt_of_succ_lt_succ hi) h1 h2]

/-- Effect of a pointwise update on `allFiles`, up to permutation: if the new
collection at `i` is, up to order, the old one plus the chunk `ex`, the whole
flattening gains exactly `ex`. -/
theorem allFiles_set_perm {sl : List SessionItem} :
    ∀ {i : Nat} {s' : SessionItem} {ex : List FileItem}, i < sl.length →
      (sessFlatten s').Perm (sessFlatten (sgetD sl i) ++ ex) →
      (allFiles (sl.set i s')).Perm (allFiles sl ++ ex) := by
  induction sl with
  | nil => intro i _ _ hi; cases hi
  | cons s rest ih =>
    intro i s' ex hi hperm
    cases i with
    | zero =>
      rw [List.set_cons_zero, allFiles_cons, allFiles_cons]
      rw [sgetD_cons_zero] at hperm
      exact (hperm.append_right (allFiles rest)).trans
        (append_rot_perm (sessFlatten s) ex (allFiles rest))
    | succ n =>
      rw [List.set_cons_succ, allFiles_cons, allFiles_cons, List.append_assoc]
      rw [sgetD_cons_succ] at hperm
      exact List.Perm.append_left (sessFlatten s)
        (ih (Nat.lt_of_succ_lt_succ hi) hperm)

/-- Permutation of the outer session list permutes the flattening. -/
theorem allFiles_perm {sl₁ sl₂ : List SessionItem} (h : sl₁.Perm sl₂) :
    (allFiles sl₁).Perm (allFiles sl₂) :=
  flatten_perm (h.map sessFlatten)

theorem findSessIdx_spec {subj : String} {sess : Option String} :
    ∀ {sl : List SessionItem} {i : Nat}, findSessIdx sl subj sess = some i →
      i < sl.length ∧ (sgetD sl i).subject = subj ∧ (sgetD sl i).session = sess := by
  intro sl
  induction sl with
  | nil => intro i h; cases h
  | cons s rest ih =>
    intro i h
    unfold findSessIdx at h
    by_cases hc : (s.subject == subj && s.session == sess) = true
    · rw [if_pos hc] at h
      cases h
      have hc' := hc
      rw [Bool.and_eq_true, beq_iff_eq, beq_iff_eq] at hc'
      exact ⟨Nat.succ_pos _, hc'.1, hc'.2⟩
    · rw [if_neg hc] at h
      cases hrec : findSessIdx rest subj sess with
      | none => rw [hrec] at h; cases h
      | some n =>
        rw [hrec] at h
        cases h
        rcases ih hrec with ⟨h1, h2, h3⟩
        exact ⟨Nat.succ_lt_succ h1, h2, h3⟩

/-- Replacing the bucket at key `m` (present, holding `fs`) by a list that is
a permutation of `fs ++ ex` changes the flattening of the map by exactly `ex`, up
to permutation. -/
theorem dset_flatten_perm :
    ∀ {d : List (String × List FileItem)} {m : String} {fs fs' ex : List FileItem},
      dget d m = some fs → fs'.Perm (fs ++ ex) →
      ((dset d m fs').map Prod.snd).flatten.Perm ((d.map Prod.snd).flatten ++ ex) := by
  intro d
  induction d with
  | nil => intro m fs fs' ex h _; cases h
  | cons kv rest ih =>
    intro m fs fs' ex hget hperm
    obtain ⟨k, v⟩ := kv
    unfold dget at hget
    unfold dset
    by_cases hk : k = m
    · rw [if_pos hk] at hget
      rw [if_pos hk]
      cases hget
      simp only [List.map_cons, List.flatten_cons]
      exact (hperm.append_right _).trans (append_rot_perm _ ex _)
    · rw [if_neg hk] at hget
      rw [if_neg hk]
      simp only [List.map_cons, List.flatten_cons, List.append_assoc]
      exact List.Perm.append_left v (ih hget hperm)

theorem dget_exists_mem [DecidableEq κ] :
    ∀ {d : List (κ × α)} {m : κ} {v : α}, dget d m = some v → ∃ p ∈ d, p.2 = v := by
  intro d
  induction d with
  | nil => intro m v h; cases h
  | cons kv rest ih =>
    intro m v h
    unfold dget at h
    by_cases hk : kv.1 = m
    · rw [if_pos hk] at h
      cases h
      exact ⟨kv, List.mem_cons_self _ _, rfl⟩
    · rw [if_neg hk] at h
      rcases ih h with ⟨p, hp, he⟩
      exact ⟨p, List.mem_cons_of_mem _ hp, he⟩

theorem dset_noEmpty :
    ∀ {d : List (String × List FileItem)} {m : String} {fs' : List FileItem},
      d.all (fun p => !p.2.isEmpty) = true → fs' ≠ [] →
      (dset d m fs').all (fun p => !p.2.isEmpty) = true := by
  intro d
  induction d with
  | nil =>
    intro m fs' _ hne
    simp [dset, List.isEmpty_iff, hne]
  | cons kv rest ih =>
    intro m fs' hall hne
    rw [List.all_cons, Bool.and_eq_true] at hall
    unfold dset
    by_cases hk : kv.1 = m
    · rw [if_pos hk]
      rw [List.all_cons, Bool.and_eq_true]
      exact ⟨by simp [List.isEmpty_iff, hne], hall.2⟩
    · rw [if_neg hk]
      rw [List.all_cons, Bool.and_eq_true]
      exact ⟨hall.1, ih hall.2 hne⟩

theorem addFile_flatten {mv : PyModal} {fi : FileItem} :
    ∀ {sf fs' : SessFiles}, addFile mv fi sf = .ok fs' →
      (sessFlattenF fs').Perm (sessFlattenF sf ++ [fi]) := by
  intro sf fs' h
  cases sf with
  | flat l =>
    simp only [addFile] at h
    by_cases ht : mv.truthy = true
    · rw [if_pos ht] at h; cases h
    · rw [if_neg ht] at h
      cases h
      exact List.Perm.refl _
  | bymodal d =>
    simp only [addFile] at h
    by_cases ht : mv.truthy = true
    · rw [if_pos ht] at h
      cases mv with
      | bool b => cases h
      | pynone => cases h
      | str m =>
        dsimp only at h
        cases hget : dget d m with
        | some fs =>
          rw [hget] at h
          cases h
          exact dset_flatten_perm hget (List.Perm.refl _)
        | none =>
          rw [hget] at h
          cases h
          simp only [sessFlattenF, List.map_append, List.flatten_append,
            List.map_cons, List.map_nil, List.flatten_cons, List.flatten_nil,
            List.append_nil]
          exact List.Perm.refl _
    · rw [if_neg ht] at h; cases h

theorem addFile_noEmpty {mv : PyModal} {fi : FileItem} :
    ∀ {sf fs' : SessFiles}, addFile mv fi sf = .ok fs' →
      sfNoEmpty sf = true → sfNoEmpty fs' = true := by
  intro sf fs' h hne
  cases sf with
  | flat l =>
    simp only [addFile] at h
    by_cases ht : mv.truthy = true
    · rw [if_pos ht] at h; cases h
    · rw [if_neg ht] at h; cases h; rfl
  | bymodal d =>
    simp only [addFile] at h
    by_cases ht : mv.truthy = true
    · rw [if_pos ht] at h
      cases mv with
      | bool b => cases h
      | pynone => cases h
      | str m =>
        dsimp only at h
        cases hget : dget d m with
        | some fs =>
          rw [hget] at h
          cases h
          exact dset_noEmpty hne (by simp)
        | none =>
          rw [hget] at h
          cases h
          simp only [sfNoEmpty] at hne ⊢
          rw [List.all_append, Bool.and_eq_true]
          exact ⟨hne, by simp⟩
    · rw [if_neg ht] at h; cases h

theorem sortSessFiles_flatten {mv : PyModal} :
    ∀ {sf fs' : SessFiles}, sortSessFiles mv sf = .ok fs' →
      (sessFlattenF fs').Perm (sessFlattenF sf) := by
  intro sf fs' h
  cases sf with
  | flat l =>
    simp only [sortSessFiles] at h
    by_cases ht : mv.truthy = true
    · rw [if_pos ht] at h; cases h
    · rw [if_neg ht] at h
      cases h
      exact sortLt_perm _ _
  | bymodal d =>
    simp only [sortSessFiles] at h
    by_cases ht : mv.truthy = true
    · rw [if_pos ht] at h
      cases mv with
      | bool b => cases h
      | pynone => cases h
      | str m =>
        dsimp only at h
        cases hget : dget d m with
        | some fs =>
          rw [hget] at h
          cases h
          have := dset_flatten_perm hget
            ((sortLt_perm fileKeyLt fs).trans (by rw [List.append_nil]))
          rwa [List.append_nil] at this
        | none => rw [hget] at h; cases h
    · rw [if_neg ht] at h; cases h

theorem sortSessFiles_noEmpty {mv : PyModal} :
    ∀ {sf fs' : SessFiles}, sortSessFiles mv sf = .ok fs' →
      sfNoEmpty sf = true → sfNoEmpty fs' = true := by
  intro sf fs' h hne
  cases sf with
  | flat l =>
    simp only [sortSessFiles] at h
    by_cases ht : mv.truthy = true
    · rw [if_pos ht] at h; cases h
    · rw [if_neg ht] at h; cases h; rfl
  | bymodal d =>
    simp only [sortSessFiles] at h
    by_cases ht : mv.truthy = true
    · rw [if_pos ht] at h
      cases mv with
      | bool b => cases h
      | pynone => cases h
      | str m =>
        dsimp only at h
        cases hget : dget d m with
        | some fs =>
          rw [hget] at h
          cases h
          have hfs : fs ≠ [] := by
            rcases dget_exists_mem hget with ⟨p, hp, he⟩
            have := List.all_eq_true.mp hne p hp
            rw [he] at this
            simpa [List.isEmpty_iff] using this
          have hsort : sortLt fileKeyLt fs ≠ [] := by
            intro hcontra
            have hp : ([] : List FileItem).Perm fs := hcontra ▸ sortLt_perm fileKeyLt fs
            exact hfs hp.symm.eq_nil
          exact dset_noEmpty hne hsort
        | none => rw [hget] at h; cases h
    · rw [if_neg ht] at h; cases h

theorem sessFlatten_mk (a : String) (b : Option String) (fs : SessFiles) :
    sessFlatten ⟨a, b, fs⟩ = sessFlattenF fs := rfl

/-- Inversion of a successful `fileStep`. -/
theorem fileStep_ok {absPath : String} {apl : List String} {sess_path : String}
    {subj : String} {sess : Option String} {mv : PyModal} {idx : Nat}
    {st p' : List SessionItem × List FileItem} {f : String}
    (h : fileStep absPath apl sess_path subj sess mv idx st f = .ok p') :
    ∃ a b rootLast fs',
      pySplit1 f '.' = [a, b] ∧ apl.getLast? = some rootLast ∧
      addFile mv ⟨subj, sess, mv.toOpt, some rootLast, pathJoin absPath sess_path, a, b⟩
        (sgetD st.1 idx).files = .ok fs' ∧
      p' = (st.1.set idx ⟨(sgetD st.1 idx).subject, (sgetD st.1 idx).session, fs'⟩,
            st.2 ++ [⟨subj, sess, mv.toOpt, some rootLast,
                      pathJoin absPath sess_path, a, b⟩]) := by
  simp only [fileStep] at h
  cases hs : pySplit1 f '.' with
  | nil =>
    rw [hs] at h
    simp only [except_throw_bind, except_pure_bind, except_bind_ok, except_bind_err] at h
    cases h
  | cons a as =>
    cases as with
    | nil =>
      rw [hs] at h
      simp only [except_throw_bind, except_pure_bind, except_bind_ok, except_bind_err] at h
      cases h
    | cons b bs =>
      cases bs with
      | cons c cs =>
        rw [hs] at h
        simp only [except_throw_bind, except_pure_bind, except_bind_ok, except_bind_err] at h
        cases h
      | nil =>
        rw [hs] at h
        simp only [except_throw_bind, except_pure_bind, except_bind_ok, except_bind_err] at h
        cases hlast : apl.getLast? with
        | none =>
          rw [hlast] at h
          simp only [except_throw_bind, except_pure_bind, except_bind_ok, except_bind_err] at h
          cases h
        | some rootLast =>
          rw [hlast] at h
          simp only [except_throw_bind, except_pure_bind, except_bind_ok, except_bind_err] at h
          cases hadd : addFile mv
              ⟨subj, sess, mv.toOpt, some rootLast, pathJoin absPath sess_path, a, b⟩
              (sgetD st.1 idx).files with
          | error e =>
            rw [hadd] at h
            simp only [except_throw_bind, except_pure_bind, except_bind_ok, except_bind_err] at h
            cases h
          | ok fs' =>
            rw [hadd] at h
            simp only [except_throw_bind, except_pure_bind, except_bind_ok, except_bind_err] at h
            cases h
            exact ⟨a, b, rootLast, fs', rfl, rfl, hadd, rfl⟩

/-- Inversion of a successful `entryStep`. -/
theorem entryStep_ok {absPath : String} {apl : List String} {max_depth : Nat}
    {ref : MaxDepthRef} {st st' : CState} {e : String × List String}
    (h : entryStep absPath apl max_depth ref st e = .ok st') :
    ∃ subj sess mv sl₀ processed' idx lists fs',
      parseMeta max_depth ref st.modalVar e.1 = .ok (subj, sess, mv) ∧
      ((st.processed.contains (taskIdOf subj sess) = true ∧
          findSessIdx st.session_list subj sess = some idx ∧
          sl₀ = st.session_list ∧ processed' = st.processed) ∨
        (st.processed.contains (taskIdOf subj sess) = false ∧
          sl₀ = st.session_list ++
            [⟨subj, sess, if mv.truthy then .bymodal [] else .flat []⟩] ∧
          processed' = st.processed ++ [taskIdOf subj sess] ∧
          idx = st.session_list.length)) ∧
      e.2.foldlM (fileStep absPath apl e.1 subj sess mv idx)
        (sl₀, st.file_list) = .ok lists ∧
      sortSessFiles mv (sgetD lists.1 idx).files = .ok fs' ∧
      st' = ⟨processed',
             lists.1.set idx ⟨(sgetD lists.1 idx).subject,
                              (sgetD lists.1 idx).session, fs'⟩,
             lists.2, mv⟩ := by
  simp only [entryStep] at h
  cases hmeta : parseMeta max_depth ref st.modalVar e.1 with
  | error er =>
    rw [hmeta] at h
    simp only [except_throw_bind, except_pure_bind, except_bind_ok, except_bind_err] at h
    cases h
  | ok meta =>
    obtain ⟨subj, sess, mv⟩ := meta
    rw [hmeta] at h
    simp only [except_throw_bind, except_pure_bind, except_bind_ok, except_bind_err] at h
    dsimp only at h
    by_cases hproc : st.processed.contains (taskIdOf subj sess) = true
    · rw [if_pos hproc] at h
      cases hfind : findSessIdx st.session_list subj sess with
      | none =>
        rw [hfind] at h
        simp only [except_throw_bind, except_pure_bind, except_bind_ok, except_bind_err] at h
        cases h
      | some idx =>
        rw [hfind] at h
        simp only [except_throw_bind, except_pure_bind, except_bind_ok, except_bind_err] at h
        cases hfold : e.2.foldlM (fileStep absPath apl e.1 subj sess mv idx)
            (st.session_list, st.file_list) with
        | error er =>
          rw [hfold] at h
          simp only [except_throw_bind, except_pure_bind, except_bind_ok, except_bind_err] at h
          cases h
        | ok lists =>
          rw [hfold] at h
          simp only [except_throw_bind, except_pure_bind, except_bind_ok, except_bind_err] at h
          cases hsort : sortSessFiles mv (sgetD lists.1 idx).files with
          | error er =>
            rw [hsort] at h
            simp only [except_throw_bind, except_pure_bind, except_bind_ok, except_bind_err] at h
            cases h
          | ok fs' =>
            rw [hsort] at h
            simp only [except_throw_bind, except_pure_bind, except_bind_ok, except_bind_err] at h
            cases h
            exact ⟨subj, sess, mv, st.session_list, st.processed, idx, lists, fs',
              rfl, Or.inl ⟨hproc, hfind, rfl, rfl⟩, hfold, hsort, rfl⟩
    · rw [if_neg hproc] at h
      cases hfold : e.2.foldlM
          (fileStep absPath apl e.1 subj sess mv st.session_list.length)
          (st.session_list ++
            [⟨subj, sess, if mv.truthy then .bymodal [] else .flat []⟩],
           st.file_list) with
      | error er =>
        rw [hfold] at h
        simp only [except_throw_bind, except_pure_bind, except_bind_ok, except_bind_err] at h
        cases h
      | ok lists =>
        rw [hfold] at h
        simp only [except_throw_bind, except_pure_bind, except_bind_ok, except_bind_err] at h
        cases hsort : sortSessFiles mv
            (sgetD lists.1 st.session_list.length).files with
        | error er =>
          rw [hsort] at h
          simp only [except_throw_bind, except_pure_bind, except_bind_ok, except_bind_err] at h
          cases h
        | ok fs' =>
          rw [hsort] at h
          simp only [except_throw_bind, except_pure_bind, except_bind_ok, except_bind_err] at h
          cases h
          exact ⟨subj, sess, mv,
            st.session_list ++
              [⟨subj, sess, if mv.truthy then .bymodal [] else .flat []⟩],
            st.processed ++ [taskIdOf subj sess], st.session_list.length,
            lists, fs', rfl,
            Or.inr ⟨Bool.eq_false_iff.mpr hproc, rfl, rfl, rfl⟩,
            hfold, hsort, rfl⟩

theorem sessFlatten_empty_files (c : Bool) (subj : String) (sess : Option String) :
    sessFlatten ⟨subj, sess, if c then SessFiles.bymodal [] else SessFiles.flat []⟩ = [] := by
  cases c <;> rfl

theorem sfNoEmpty_empty_files (c : Bool) :
    sfNoEmpty (if c then SessFiles.bymodal [] else SessFiles.flat []) = true := by
  cases c <;> rfl

theorem allFiles_nil : allFiles [] = [] := rfl

theorem key_not_mem_of_tid {sl : List SessionItem} {P : List String}
    (tids : ∀ s ∈ sl, taskIdOf s.subject s.session ∈ P)
    {subj : String} {sess : Option String} (hnot : taskIdOf subj sess ∉ P) :
    (subj, sess) ∉ sl.map (fun s => (s.subject, s.session)) := by
  intro hmem
  rcases List.mem_map.mp hmem with ⟨s, hs, he⟩
  have h1 : s.subject = subj := congrArg Prod.fst he
  have h2 : s.session = sess := congrArg Prod.snd he
  exact hnot (h1 ▸ h2 ▸ tids s hs)

/-- Invariant carried through the inner `for f in filenames` loop of
`_constructor`: the two partial indexes are consistent, every file carries the
last segment of the scan root, and the session under construction sits at `idx`
with the current subject and session. -/
structure InnerInv (rootOpt : Option String) (subj : String)
    (sess : Option String) (idx : Nat) (P : List String)
    (p : List SessionItem × List FileItem) : Prop where
  perm : (allFiles p.1).Perm p.2
  agrees : ∀ s ∈ p.1, sessAgrees s
  keys : keyDistinct p.1
  tids : ∀ s ∈ p.1, taskIdOf s.subject s.session ∈ P
  hnoe : ∀ s ∈ p.1, sfNoEmpty s.files = true
  annot : ∀ f ∈ p.2, fannot f = rootOpt
  hidx : idx < p.1.length
  hsub : (sgetD p.1 idx).subject = subj
  hses : (sgetD p.1 idx).session = sess

theorem fileStep_inv {absPath : String} {apl : List String} {sess_path : String}
    {subj : String} {sess : Option String} {mv : PyModal} {idx : Nat}
    {st p' : List SessionItem × List FileItem} {f : String} {P : List String}
    (h : fileStep absPath apl sess_path subj sess mv idx st f = .ok p')
    (inv : InnerInv apl.getLast? subj sess idx P st) :
    InnerInv apl.getLast? subj sess idx P p' := by
  rcases fileStep_ok h with ⟨a, b, rootLast, fs', hs, hlast, hadd, rfl⟩
  have hflat : (sessFlatten (⟨(sgetD st.1 idx).subject, (sgetD st.1 idx).session, fs'⟩ :
      SessionItem)).Perm
      (sessFlatten (sgetD st.1 idx) ++
        [⟨subj, sess, mv.toOpt, some rootLast, pathJoin absPath sess_path, a, b⟩]) :=
    addFile_flatten hadd
  have hs0mem : sgetD st.1 idx ∈ st.1 := sgetD_mem inv.hidx
  refine ⟨?_, ?_, ?_, ?_, ?_, ?_, ?_, ?_, ?_⟩ <;> dsimp only
  · exact (allFiles_set_perm inv.hidx hflat).trans (inv.perm.append_right _)
  · intro s hsmem
    rcases List.mem_or_eq_of_mem_set hsmem with hin | rfl
    · exact inv.agrees s hin
    · intro f hf
      rcases List.mem_append.mp (hflat.mem_iff.mp hf) with hf0 | hfi
      · exact inv.agrees _ hs0mem f hf0
      · rcases List.mem_singleton.mp hfi with rfl
        exact ⟨inv.hsub.symm, inv.hses.symm⟩
  · unfold keyDistinct
    rw [map_key_set ⟨(sgetD st.1 idx).subject, (sgetD st.1 idx).session, fs'⟩
      inv.hidx rfl rfl]
    exact inv.keys
  · intro s hsmem
    rcases List.mem_or_eq_of_mem_set hsmem with hin | rfl
    · exact inv.tids s hin
    · exact inv.tids (sgetD st.1 idx) hs0mem
  · intro s hsmem
    rcases List.mem_or_eq_of_mem_set hsmem with hin | rfl
    · exact inv.hnoe s hin
    · exact addFile_noEmpty hadd (inv.hnoe (sgetD st.1 idx) hs0mem)
  · intro f hf
    rcases List.mem_append.mp hf with hin | hfi
    · exact inv.annot f hin
    · rcases List.mem_singleton.mp hfi with rfl
      exact hlast.symm
  · rw [List.length_set]; exact inv.hidx
  · rw [sgetD_set_self inv.hidx]; exact inv.hsub
  · rw [sgetD_set_self inv.hidx]; exact inv.hses

/-- Invariant carried through the outer loop of `_constructor`. -/
structure ConsInv (rootOpt : Option String) (st : CState) : Prop where
  perm : (allFiles st.session_list).Perm st.file_list
  agrees : ∀ s ∈ st.session_list, sessAgrees s
  keys : keyDistinct st.session_list
  tids : ∀ s ∈ st.session_list, taskIdOf s.subject s.session ∈ st.processed
  hnoe : ∀ s ∈ st.session_list, sfNoEmpty s.files = true
  annot : ∀ f ∈ st.file_list, fannot f = rootOpt

theorem entryStep_inv {absPath : String} {apl : List String} {max_depth : Nat}
    {ref : MaxDepthRef} {st st' : CState} {e : String × List String}
    (h : entryStep absPath apl max_depth ref st e = .ok st')
    (inv : ConsInv apl.getLast? st) : ConsInv apl.getLast? st' := by
  rcases entryStep_ok h with
    ⟨subj, sess, mv, sl₀, processed', idx, lists, fs', hmeta, hbr, hfold, hsort, rfl⟩
  have hPsub : ∀ t ∈ st.processed, t ∈ processed' := by
    rcases hbr with ⟨_, _, _, rfl⟩ | ⟨_, _, rfl, _⟩
    · exact fun t ht => ht
    · exact fun t ht => List.mem_append_left _ ht
  have hstart : InnerInv apl.getLast? subj sess idx processed' (sl₀, st.file_list) := by
    rcases hbr with ⟨hproc, hfind, rfl, rfl⟩ | ⟨hproc, rfl, rfl, rfl⟩
    · rcases findSessIdx_spec hfind with ⟨h1, h2, h3⟩
      exact ⟨inv.perm, inv.agrees, inv.keys, inv.tids, inv.hnoe, inv.annot, h1, h2, h3⟩
    · have hnotmem : taskIdOf subj sess ∉ st.processed := by
        simpa using hproc
      refine ⟨?_, ?_, ?_, ?_, ?_, inv.annot, ?_, ?_, ?_⟩
      · rw [allFiles_append, allFiles_cons, sessFlatten_empty_files, allFiles_nil,
          List.append_nil, List.append_nil]
        exact inv.perm
      · intro s hsmem
        rcases List.mem_append.mp hsmem with hin | hns
        · exact inv.agrees s hin
        · rcases List.mem_singleton.mp hns with rfl
          intro f hf
          rw [sessFlatten_empty_files] at hf
          cases hf
      · unfold keyDistinct
        rw [List.map_append]
        rw [List.nodup_append]
        refine ⟨inv.keys, by simp, ?_⟩
        intro k hk
        simp only [List.map_cons, List.map_nil, List.mem_singleton]
        intro hke
        rcases hke with rfl
        exact key_not_mem_of_tid inv.tids hnotmem hk
      · intro s hsmem
        rcases List.mem_append.mp hsmem with hin | hns
        · exact List.mem_append_left _ (inv.tids s hin)
        · rcases List.mem_singleton.mp hns with rfl
          exact List.mem_append_right _ (List.mem_singleton_self _)
      · intro s hsmem
        rcases List.mem_append.mp hsmem with hin | hns
        · exact inv.hnoe s hin
        · rcases List.mem_singleton.mp hns with rfl
          exact sfNoEmpty_empty_files _
      · simp
      · rw [sgetD_snoc_self]
      · rw [sgetD_snoc_self]
  have hinner : InnerInv apl.getLast? subj sess idx processed' (lists.1, lists.2) := by
    have := foldlM_inv (InnerInv apl.getLast? subj sess idx processed')
      (fun b x b' _ hstep hb => fileStep_inv hstep hb) hfold hstart
    cases lists
    exact this
  have hs0mem : sgetD lists.1 idx ∈ lists.1 := sgetD_mem hinner.hidx
  have hflat : (sessFlatten (⟨(sgetD lists.1 idx).subject,
      (sgetD lists.1 idx).session, fs'⟩ : SessionItem)).Perm
      (sessFlatten (sgetD lists.1 idx) ++ []) := by
    rw [List.append_nil]
    exact sortSessFiles_flatten hsort
  have hset := allFiles_set_perm hinner.hidx hflat
  rw [List.append_nil] at hset
  refine ⟨?_, ?_, ?_, ?_, ?_, ?_⟩ <;> dsimp only
  · exact hset.trans hinner.perm
  · intro s hsmem
    rcases List.mem_or_eq_of_mem_set hsmem with hin | rfl
    · exact hinner.agrees s hin
    · intro f hf
      have hf0 : f ∈ sessFlatten (sgetD lists.1 idx) := by
        have hmem := hflat.mem_iff.mp hf
        rwa [List.append_nil] at hmem
      exact hinner.agrees (sgetD lists.1 idx) hs0mem f hf0
  · unfold keyDistinct
    rw [map_key_set ⟨(sgetD lists.1 idx).subject, (sgetD lists.1 idx).session, fs'⟩
      hinner.hidx rfl rfl]
    exact hinner.keys
  · intro s hsmem
    rcases List.mem_or_eq_of_mem_set hsmem with hin | rfl
    · exact hinner.tids s hin
    · exact hinner.tids (sgetD lists.1 idx) hs0mem
  · intro s hsmem
    rcases List.mem_or_eq_of_mem_set hsmem with hin | rfl
    · exact hinner.hnoe s hin
    · exact sortSessFiles_noEmpty hsort (hinner.hnoe (sgetD lists.1 idx) hs0mem)
  · exact hinner.annot

/-- The three construction invariants of `_constructor` output: the two
indexes are mutually consistent, no modality bucket is empty, and every file
fourth field of every file record is the last path segment of the scan root. -/
theorem constructor_inv {files : DataItem} {ref : MaxDepthRef} {modal : Bool}
    {max_depth : Nat} {apl : List String} {absPath : String}
    {sl : List SessionItem} {fl : List FileItem}
    (h : constructor files ref modal max_depth apl absPath = .ok (sl, fl)) :
    sameRecords fl sl ∧ (∀ s ∈ sl, sfNoEmpty s.files = true) ∧
    (∀ f ∈ fl, fannot f = apl.getLast?) := by
  simp only [constructor] at h
  cases hget : dget files.by_depth max_depth with
  | none =>
    rw [hget] at h
    simp only [except_throw_bind, except_pure_bind, except_bind_ok,
      except_bind_err] at h
    cases h
  | some entries =>
    rw [hget] at h
    simp only [except_throw_bind, except_pure_bind, except_bind_ok,
      except_bind_err] at h
    cases hfold : entries.foldlM (entryStep absPath apl max_depth ref)
        ⟨[], [], [], .bool modal⟩ with
    | error er =>
      rw [hfold] at h
      simp only [except_throw_bind, except_pure_bind, except_bind_ok,
        except_bind_err] at h
      cases h
    | ok st =>
      rw [hfold] at h
      simp only [except_throw_bind, except_pure_bind, except_bind_ok,
        except_bind_err] at h
      have hst : ConsInv apl.getLast? st := by
        refine foldlM_inv (ConsInv apl.getLast?)
          (fun b x b' _ hstep hb => entryStep_inv hstep hb) hfold ?_
        exact ⟨List.Perm.refl _, fun s hs => (by cases hs), (by constructor),
          fun s hs => (by cases hs), fun s hs => (by cases hs),
          fun f hf => (by cases hf)⟩
      have hsl : sl = sortLt sessKeyLt st.session_list := by
        cases h; rfl
      have hfl : fl = sortLt fileFullKeyLt st.file_list := by
        cases h; rfl
      subst hsl
      subst hfl
      have hpermS : (sortLt sessKeyLt st.session_list).Perm st.session_list :=
        sortLt_perm _ _
      have hpermF : (sortLt fileFullKeyLt st.file_list).Perm st.file_list :=
        sortLt_perm _ _
      refine ⟨⟨?_, ?_, ?_⟩, ?_, ?_⟩
      · exact (allFiles_perm hpermS).trans (hst.perm.trans hpermF.symm)
      · exact fun s hs => hst.agrees s (hpermS.mem_iff.mp hs)
      · unfold keyDistinct
        exact ((hpermS.map _).nodup_iff).mpr hst.keys
      · exact fun s hs => hst.hnoe s (hpermS.mem_iff.mp hs)
      · exact fun f hf => hst.annot f (hpermF.mem_iff.mp hf)

/-! ### Filtering preserves the consistency of the two indexes -/

/-- One conditional filtering stage (`if <predicate given>: keep matching`). -/
def condFilter (t : Bool) (q : FileItem → Bool) (l : List FileItem) : List FileItem :=
  if t then l.filter q else l

theorem condFilter_perm {l₁ l₂ : List FileItem} (t : Bool) (q : FileItem → Bool)
    (h : l₁.Perm l₂) : (condFilter t q l₁).Perm (condFilter t q l₂) := by
  unfold condFilter
  cases t
  · exact h
  · exact h.filter q

theorem condFilter_subset {t : Bool} {q : FileItem → Bool} {l : List FileItem}
    {f : FileItem} (h : f ∈ condFilter t q l) : f ∈ l := by
  unfold condFilter at h
  split at h
  · exact List.mem_of_mem_filter h
  · exact h

theorem condFilter_comm (t t' : Bool) (q q' : FileItem → Bool) (l : List FileItem) :
    condFilter t q (condFilter t' q' l) = condFilter t' q' (condFilter t q l) := by
  unfold condFilter
  cases t <;> cases t' <;> simp only [Bool.false_eq_true, if_false, if_true]
  rw [List.filter_filter, List.filter_filter]
  exact List.filter_congr fun x _ => Bool.and_comm (q x) (q' x)

theorem sessFlattenF_filterFiles (q : FileItem → Bool) (fs : SessFiles) :
    sessFlattenF (filterFiles q fs) = (sessFlattenF fs).filter q := by
  cases fs with
  | flat l => rfl
  | bymodal d =>
    show ((d.map (fun mv => (mv.1, mv.2.filter q))).map Prod.snd).flatten =
      ((d.map Prod.snd).flatten).filter q
    rw [List.map_map, List.filter_flatten, List.map_map]
    rfl

theorem flatten_filter_nonempty (d : List (String × List FileItem)) :
    ((d.filter (fun mv => !mv.2.isEmpty)).map Prod.snd).flatten =
      (d.map Prod.snd).flatten := by
  induction d with
  | nil => rfl
  | cons kv rest ih =>
    by_cases h : kv.2.isEmpty = true
    · have hk : kv.2 = [] := List.isEmpty_iff.mp h
      rw [List.filter_cons_of_neg (by simp [h]), List.map_cons, List.flatten_cons,
        hk, List.nil_append, ih]
    · rw [List.filter_cons_of_pos (by simp [h]), List.map_cons, List.map_cons,
        List.flatten_cons, List.flatten_cons, ih]

theorem sessFlattenF_prune (fs : SessFiles) :
    sessFlattenF (pruneEmpty fs) = sessFlattenF fs := by
  cases fs with
  | flat l => rfl
  | bymodal d => exact flatten_filter_nonempty d

/-- Flattening one transformed session: the `_session_filter` loop body acts
on the nested files of a session as the conjunction of its active per-record
predicates, applied in source order (modal, annotation, regex, regex_ignore,
ext; the final empty-bucket pruning does not change the flattening). -/
theorem sessTransform_flatten (rmatch : String → String → Bool) (a : FilterArgs)
    (s : SessionItem) :
    sessFlatten (sessTransform rmatch a s) =
      condFilter (optStrTruthy a.ext) (fun f => f.has_ext (a.ext.getD ("")))
        (condFilter (optStrTruthy a.regexIgnore)
          (fun f => !(rmatch (a.regexIgnore.getD ("")) f.filename))
          (condFilter (optStrTruthy a.regex)
            (fun f => rmatch (a.regex.getD ("")) f.filename)
            (condFilter (aannot a).truthy
              (fun f => inStrsOpt (aannot a).norm (fannot f))
              (condFilter a.modal.truthy
                (fun f => inStrsOpt a.modal.norm f.modal)
                (sessFlatten s))))) := by
  unfold sessTransform condFilter
  by_cases h1 : a.modal.truthy = true <;>
    by_cases h2 : (aannot a).truthy = true <;>
    by_cases h3 : optStrTruthy a.regex = true <;>
    by_cases h4 : optStrTruthy a.regexIgnore = true <;>
    by_cases h5 : optStrTruthy a.ext = true <;>
    simp [h1, h2, h3, h4, h5, sessFlatten_mk, sessFlattenF_prune,
      sessFlattenF_filterFiles, sessFlatten]

theorem sessTransform_subject (rmatch : String → String → Bool) (a : FilterArgs)
    (s : SessionItem) : (sessTransform rmatch a s).subject = s.subject := rfl

theorem sessTransform_session (rmatch : String → String → Bool) (a : FilterArgs)
    (s : SessionItem) : (sessTransform rmatch a s).session = s.session := rfl

theorem flatten_map_condFilter (t : Bool) (q : FileItem → Bool)
    (L : List (List FileItem)) :
    ((L.map (condFilter t q)).flatten) = condFilter t q L.flatten := by
  unfold condFilter
  cases t
  · simp
  · exact (List.filter_flatten q L).symm

/-- A conditional key-level filter on sessions acts on the flattening as the
corresponding conditional filter on records, provided every nested record
agrees with the key of its session. -/
theorem allFiles_condFilter_key {sl : List SessionItem}
    (hag : ∀ s ∈ sl, sessAgrees s) (t : Bool) (sp : SessionItem → Bool)
    (fp : FileItem → Bool)
    (hcompat : ∀ s f, f.subject = s.subject → f.session = s.session → fp f = sp s) :
    allFiles (if t then sl.filter sp else sl) = condFilter t fp (allFiles sl) := by
  cases t
  · rfl
  · simp only [if_pos]
    unfold condFilter
    rw [if_pos rfl]
    induction sl with
    | nil => rfl
    | cons s rest ih =>
      have hags : sessAgrees s := hag s (List.mem_cons_self _ _)
      have hagr : ∀ x ∈ rest, sessAgrees x :=
        fun x hx => hag x (List.mem_cons_of_mem _ hx)
      rw [allFiles_cons, List.filter_append]
      by_cases hsp : sp s = true
      · rw [List.filter_cons_of_pos hsp, allFiles_cons, ih hagr]
        have : List.filter fp (sessFlatten s) = sessFlatten s :=
          List.filter_eq_self.mpr
            (fun f hf => by
              rcases hags f hf with ⟨e1, e2⟩
              rw [hcompat s f e1 e2, hsp])
        rw [this]
      · rw [List.filter_cons_of_neg (by simp [hsp]), ih hagr]
        have : List.filter fp (sessFlatten s) = [] :=
          List.filter_eq_nil_iff.mpr
            (fun f hf => by
              rcases hags f hf with ⟨e1, e2⟩
              simp [hcompat s f e1 e2, hsp])
        rw [this, List.nil_append]

theorem condSFilter_sublist (t : Bool) (sp : SessionItem → Bool)
    (sl : List SessionItem) : (if t then sl.filter sp else sl).Sublist sl := by
  cases t
  · exact List.Sublist.refl sl
  · simp only [if_pos]
    exact List.filter_sublist sl

/-- The flat component of `_filter` as a chain of conditional stages, read off
the source order (subject, session, modal, annotation, ext, regex,
regex_ignore). -/
theorem filterLists_fst (rmatch : String → String → Bool)
    (fl : List FileItem) (sl : List SessionItem) (a : FilterArgs) :
    (filterLists rmatch fl sl a).1 =
      condFilter (optStrTruthy a.regexIgnore)
        (fun f => !(rmatch (a.regexIgnore.getD ("")) f.filename))
        (condFilter (optStrTruthy a.regex)
          (fun f => rmatch (a.regex.getD ("")) f.filename)
          (condFilter (optStrTruthy a.ext) (fun f => f.has_ext (a.ext.getD ("")))
            (condFilter (aannot a).truthy
              (fun f => inStrsOpt (aannot a).norm (fannot f))
              (condFilter a.modal.truthy
                (fun f => inStrsOpt a.modal.norm f.modal)
                (condFilter a.session.truthy
                  (fun f => inStrsOpt a.session.norm f.session)
                  (condFilter a.subject.truthy
                    (fun f => inStrs a.subject.norm f.subject) fl)))))) := rfl

/-- The session component of `_filter`: key-level pruning by subject and
session, then the per-session transform of `_session_filter`. -/
theorem filterLists_snd (rmatch : String → String → Bool)
    (fl : List FileItem) (sl : List SessionItem) (a : FilterArgs) :
    (filterLists rmatch fl sl a).2 =
      ((if a.session.truthy then
          (if a.subject.truthy then
              sl.filter (fun s => inStrs a.subject.norm s.subject)
            else sl).filter (fun s => inStrsOpt a.session.norm s.session)
        else
          (if a.subject.truthy then
              sl.filter (fun s => inStrs a.subject.norm s.subject)
            else sl)).map (sessTransform rmatch a)) := rfl

theorem condFilter_nil (t : Bool) (q : FileItem → Bool) : condFilter t q [] = [] := by
  unfold condFilter
  cases t <;> rfl

theorem condFilter_append (t : Bool) (q : FileItem → Bool) (l₁ l₂ : List FileItem) :
    condFilter t q (l₁ ++ l₂) = condFilter t q l₁ ++ condFilter t q l₂ := by
  unfold condFilter
  cases t
  · rfl
  · simp only [if_true, List.filter_append]

/-- Flattening a `_session_filter` pass over a whole session list: the nested
filters act as the same conditional record filters on the flattening. -/
theorem allFiles_map_transform (rmatch : String → String → Bool) (a : FilterArgs)
    (sl : List SessionItem) :
    allFiles (sl.map (sessTransform rmatch a)) =
      condFilter (optStrTruthy a.ext) (fun f => f.has_ext (a.ext.getD ("")))
        (condFilter (optStrTruthy a.regexIgnore)
          (fun f => !(rmatch (a.regexIgnore.getD ("")) f.filename))
          (condFilter (optStrTruthy a.regex)
            (fun f => rmatch (a.regex.getD ("")) f.filename)
            (condFilter (aannot a).truthy
              (fun f => inStrsOpt (aannot a).norm (fannot f))
              (condFilter a.modal.truthy
                (fun f => inStrsOpt a.modal.norm f.modal)
                (allFiles sl))))) := by
  induction sl with
  | nil => simp only [List.map_nil, allFiles_nil, condFilter_nil]
  | cons s rest ih =>
    rw [List.map_cons, allFiles_cons, allFiles_cons, sessTransform_flatten, ih]
    simp only [condFilter_append]

/-- C2 is packaged through this preservation statement: `_filter` keeps the
two indexes mutually consistent. -/
theorem filterLists_preserves_sameRecords (rmatch : String → String → Bool)
    (a : FilterArgs) {fl : List FileItem} {sl : List SessionItem}
    (h : sameRecords fl sl) :
    sameRecords (filterLists rmatch fl sl a).1 (filterLists rmatch fl sl a).2 := by
  obtain ⟨hperm, hag, hkeys⟩ := h
  have hag₁ : ∀ s ∈ (if a.subject.truthy then
      sl.filter (fun s => inStrs a.subject.norm s.subject) else sl), sessAgrees s :=
    fun s hs => hag s ((condSFilter_sublist _ _ _).subset hs)
  have hsub₂ : ((if a.session.truthy then
      (if a.subject.truthy then
          sl.filter (fun s => inStrs a.subject.norm s.subject) else sl).filter
        (fun s => inStrsOpt a.session.norm s.session)
      else
        (if a.subject.truthy then
            sl.filter (fun s => inStrs a.subject.norm s.subject) else sl))).Sublist sl :=
    (condSFilter_sublist _ _ _).trans (condSFilter_sublist _ _ _)
  have hag₂ : ∀ s ∈ (if a.session.truthy then
      (if a.subject.truthy then
          sl.filter (fun s => inStrs a.subject.norm s.subject) else sl).filter
        (fun s => inStrsOpt a.session.norm s.session)
      else
        (if a.subject.truthy then
            sl.filter (fun s => inStrs a.subject.norm s.subject) else sl)),
      sessAgrees s :=
    fun s hs => hag s (hsub₂.subset hs)
  have hAF₁ : allFiles (if a.subject.truthy then
      sl.filter (fun s => inStrs a.subject.norm s.subject) else sl) =
      condFilter a.subject.truthy (fun f => inStrs a.subject.norm f.subject)
        (allFiles sl) :=
    allFiles_condFilter_key hag _ (fun s => inStrs a.subject.norm s.subject)
      (fun f => inStrs a.subject.norm f.subject) (fun s f e1 _ => by dsimp only; rw [e1])
  have hAF₂ : allFiles (if a.session.truthy then
      (if a.subject.truthy then
          sl.filter (fun s => inStrs a.subject.norm s.subject) else sl).filter
        (fun s => inStrsOpt a.session.norm s.session)
      else
        (if a.subject.truthy then
            sl.filter (fun s => inStrs a.subject.norm s.subject) else sl)) =
      condFilter a.session.truthy (fun f => inStrsOpt a.session.norm f.session)
        (condFilter a.subject.truthy (fun f => inStrs a.subject.norm f.subject)
          (allFiles sl)) := by
    rw [allFiles_condFilter_key hag₁ _ (fun s => inStrsOpt a.session.norm s.session)
      (fun f => inStrsOpt a.session.norm f.session) (fun s f _ e2 => by dsimp only; rw [e2]), hAF₁]
  refine ⟨?_, ?_, ?_⟩
  · rw [filterLists_fst, filterLists_snd, allFiles_map_transform, hAF₂]
    rw [condFilter_comm (optStrTruthy a.regex) (optStrTruthy a.ext),
      condFilter_comm (optStrTruthy a.regexIgnore) (optStrTruthy a.ext)]
    exact condFilter_perm _ _ (condFilter_perm _ _ (condFilter_perm _ _
      (condFilter_perm _ _ (condFilter_perm _ _ (condFilter_perm _ _
        (condFilter_perm _ _ hperm))))))
  · rw [filterLists_snd]
    intro s' hs'
    rcases List.mem_map.mp hs' with ⟨s, hs, rfl⟩
    intro f hf
    rw [sessTransform_flatten] at hf
    have hf0 : f ∈ sessFlatten s :=
      condFilter_subset (condFilter_subset (condFilter_subset
        (condFilter_subset (condFilter_subset hf))))
    exact hag s (hsub₂.subset hs) f hf0
  · rw [filterLists_snd]
    unfold keyDistinct
    rw [List.map_map]
    have hemap : (List.map
        ((fun s => (s.subject, s.session)) ∘ sessTransform rmatch a)
        (if a.session.truthy then
          (if a.subject.truthy then
              sl.filter (fun s => inStrs a.subject.norm s.subject) else sl).filter
            (fun s => inStrsOpt a.session.norm s.session)
          else
            (if a.subject.truthy then
                sl.filter (fun s => inStrs a.subject.norm s.subject) else sl))) =
        (List.map (fun s => (s.subject, s.session))
          (if a.session.truthy then
            (if a.subject.truthy then
                sl.filter (fun s => inStrs a.subject.norm s.subject) else sl).filter
              (fun s => inStrsOpt a.session.norm s.session)
            else
              (if a.subject.truthy then
                  sl.filter (fun s => inStrs a.subject.norm s.subject) else sl))) :=
      List.map_congr_left (fun s _ => rfl)
    rw [hemap]
    exact (hsub₂.map _).nodup hkeys

/-- Uniqueness consequences of the invariant: each flat record sits in
exactly one session collection, and each nested record is in the flat list. -/
theorem sameRecords_unique_session {fl : List FileItem} {sl : List SessionItem}
    (h : sameRecords fl sl) :
    (∀ f ∈ fl, ∃! s, s ∈ sl ∧ f ∈ sessFlatten s) ∧
    (∀ s ∈ sl, ∀ f ∈ sessFlatten s, f ∈ fl) := by
  obtain ⟨hperm, hag, hkeys⟩ := h
  constructor
  · intro f hf
    have hfa : f ∈ allFiles sl := hperm.mem_iff.mpr hf
    rcases List.mem_flatten.mp hfa with ⟨l, hl, hfl2⟩
    rcases List.mem_map.mp hl with ⟨s, hs, rfl⟩
    refine ⟨s, ⟨hs, hfl2⟩, ?_⟩
    intro s' hs'
    rcases hs' with ⟨hs'mem, hf'⟩
    have e1 : (s'.subject, s'.session) = (s.subject, s.session) := by
      rcases hag s' hs'mem f hf' with ⟨a1, a2⟩
      rcases hag s hs f hfl2 with ⟨b1, b2⟩
      rw [← a1, ← a2, b1, b2]
    exact List.inj_on_of_nodup_map hkeys hs'mem hs e1
  · intro s hs f hf
    have : f ∈ allFiles sl :=
      List.mem_flatten.mpr ⟨sessFlatten s, List.mem_map_of_mem sessFlatten hs, hf⟩
    exact hperm.mem_iff.mp this

/-! ## C2 -/

/-- C2: after construction and after every `filter(...)` call, the flat file
list and the session-grouped index hold exactly the same `FileItem`s.  First
conjunct: `_constructor` output satisfies the invariant (flattened session
files are a permutation of the flat list, nested records carry their
identifiers of their session, session keys are pairwise distinct).  Second conjunct:
`_filter` preserves the invariant for every matcher and every argument
combination, so it holds after any chain of `filter(...)` calls.  Third
conjunct: under the invariant, every flat record lies in exactly one
file collection of exactly one session and every nested record is in the flat list. -/
theorem claim2_flat_session_consistency :
    (∀ (files : DataItem) (ref : MaxDepthRef) (modal : Bool) (max_depth : Nat)
        (apl : List String) (absPath : String) (sl : List SessionItem)
        (fl : List FileItem),
        constructor files ref modal max_depth apl absPath = .ok (sl, fl) →
        sameRecords fl sl) ∧
    (∀ (rmatch : String → String → Bool) (a : FilterArgs) (fl : List FileItem)
        (sl : List SessionItem), sameRecords fl sl →
        sameRecords (filterLists rmatch fl sl a).1 (filterLists rmatch fl sl a).2) ∧
    (∀ (fl : List FileItem) (sl : List SessionItem), sameRecords fl sl →
        (∀ f ∈ fl, ∃! s, s ∈ sl ∧ f ∈ sessFlatten s) ∧
        (∀ s ∈ sl, ∀ f ∈ sessFlatten s, f ∈ fl)) :=
  ⟨fun _ _ _ _ _ _ _ _ h => (constructor_inv h).1,
   fun rmatch a _ _ h => filterLists_preserves_sameRecords rmatch a h,
   fun _ _ h => sameRecords_unique_session h⟩

/-- A one-file index at depth 2, as `_parse_all` would produce for
`data/sub-01/anat/sub-01_T1w.nii.gz`. -/
def filesW : DataItem := ⟨[(2, [("sub-01/anat", ["sub-01_T1w.nii.gz"])])]⟩

/-- The record `_constructor` builds from `filesW`. -/
def fiW : FileItem :=
  ⟨"sub-01", none, some ("anat"), some ("data"), "/data/sub-01/anat",
   "sub-01_T1w", "nii.gz"⟩

/-- The session list `_constructor` builds from `filesW`. -/
def slW : List SessionItem := [⟨"sub-01", none, .bymodal [("anat", [fiW])]⟩]

/-- C2 witness. -/
theorem claim2_flat_session_consistency_witness :
    constructor filesW ⟨2, 3⟩ true 2 [("data")] ("/data") = .ok (slW, [fiW]) ∧
    sameRecords [fiW] slW :=
  ⟨by decide,
   claim2_flat_session_consistency.1 filesW ⟨2, 3⟩ true 2 [("data")] ("/data")
     slW [fiW] (by decide)⟩

/-! ## C6 -/

/-- C6 counterexample: the claim states that for every scanned tree whose max
depth is outside the `DepthReference`, both the Validator and the Constructor
fail with a structural error naming the observed depth and the two accepted
depths.  On the tree `data/sub-01/a/b/c/` (max depth 4, no files at depth 4)
the Constructor instead fails looking up `files.by_depth[4]` — a `KeyError`,
not the structural `ValueError` with that message. -/
theorem claim6_counterexample :
    (parse_all fsC6).max_depth = 4 ∧
    RawDataset.init fsC6 ("/data") false none =
      .error (PyErr.keyError (toString 4)) ∧
    PyErr.keyError (toString 4) ≠ PyErr.valueError (depthMsg 4 ⟨2, 3⟩) := by
  refine ⟨?_, ?_, ?_⟩ <;> decide

/-- C6 (amended): for a max depth outside the reference list, the Validator
always raises the structural `ValueError` whose message names the observed
depth and the two accepted depths; the Constructor raises that same
structural error when the file index has a (necessarily non-empty, for a
scanned tree) entry at the observed depth, but raises `KeyError` when no
files were recorded at that depth.  Either way the façade cannot be
constructed. -/
theorem claim6_depth_structural_errors (dirs files : DataItem)
    (max_depth : Nat) (ref : MaxDepthRef) (modal dir_only : Bool)
    (apl : List String) (absPath : String)
    (h : ref.depthList.contains max_depth = false) :
    validator dirs files max_depth ref modal dir_only =
      .error (PyErr.valueError (depthMsg max_depth ref)) ∧
    (dget files.by_depth max_depth = none →
      constructor files ref modal max_depth apl absPath =
        .error (PyErr.keyError (toString max_depth))) ∧
    (∀ e rest, dget files.by_depth max_depth = some (e :: rest) →
      constructor files ref modal max_depth apl absPath =
        .error (PyErr.valueError (depthMsg max_depth ref))) := by
  have hne : max_depth ≠ ref.single_session ∧ max_depth ≠ ref.multi_session := by
    unfold MaxDepthRef.depthList at h
    simp at h
    exact h
  refine ⟨?_, ?_, ?_⟩
  · unfold validator
    rw [h]
    rfl
  · intro hnone
    unfold constructor
    rw [hnone]
    rfl
  · intro e rest hsome
    have hpm : ∀ mv sp, parseMeta max_depth ref mv sp =
        .error (PyErr.valueError (depthMsg max_depth ref)) := by
      intro mv sp
      unfold parseMeta
      rw [if_neg hne.1, if_neg hne.2]
    have hes : ∀ st : CState, entryStep absPath apl max_depth ref st e =
        .error (PyErr.valueError (depthMsg max_depth ref)) := by
      intro st
      simp only [entryStep, hpm, except_bind_err]
    unfold constructor
    rw [hsome]
    simp only [except_pure_bind, except_bind_ok, List.foldlM_cons, hes,
      except_bind_err]

/-- C6 witness. -/
theorem claim6_depth_structural_errors_witness :
    (MaxDepthRef.depthList ⟨2, 3⟩).contains 4 = false ∧
    validator ⟨[]⟩ ⟨[]⟩ 4 ⟨2, 3⟩ true false =
      .error (PyErr.valueError (depthMsg 4 ⟨2, 3⟩)) ∧
    constructor ⟨[]⟩ ⟨2, 3⟩ true 4 [("data")] ("/data") =
      .error (PyErr.keyError (toString 4)) := by
  have h := claim6_depth_structural_errors ⟨[]⟩ ⟨[]⟩ 4 ⟨2, 3⟩ true false
    [("data")] ("/data") (by decide)
  exact ⟨by decide, h.1, h.2.1 (by decide)⟩

/-! ## C7 -/

/-- C7: `filter()` with no predicates returns content-equal indexes.  First
conjunct: every constructed façade has no empty modality bucket (the
precondition under which the unconditional empty-bucket pruning of
`_session_filter` is the identity).  Second conjunct: on such indexes,
`_filter` with no arguments returns the flat list and the session list
unchanged (same records, same order).  Third conjunct: lifted to the façade —
`filter()` on a `RawDataset` returns a façade whose `file_list` and
`session_list` equal those of the source, whatever the filesystem looks like at
filter time. -/
theorem claim7_no_predicate_identity :
    (∀ (files : DataItem) (ref : MaxDepthRef) (modal : Bool) (max_depth : Nat)
        (apl : List String) (absPath : String) (sl : List SessionItem)
        (fl : List FileItem),
        constructor files ref modal max_depth apl absPath = .ok (sl, fl) →
        ∀ s ∈ sl, sfNoEmpty s.files = true) ∧
    (∀ (rmatch : String → String → Bool) (fl : List FileItem)
        (sl : List SessionItem), (∀ s ∈ sl, sfNoEmpty s.files = true) →
        filterLists rmatch fl sl noArgs = (fl, sl)) ∧
    (∀ (rmatch : String → String → Bool) (fsNow : FSTree) (fac : Facade),
        (∀ s ∈ fac.session_list, sfNoEmpty s.files = true) →
        (RawDataset.filter rmatch fsNow fac noArgs).map
            (fun g => (g.file_list, g.session_list)) =
          .ok (fac.file_list, fac.session_list)) := by
  have core : ∀ (rmatch : String → String → Bool) (fl : List FileItem)
      (sl : List SessionItem), (∀ s ∈ sl, sfNoEmpty s.files = true) →
      filterLists rmatch fl sl noArgs = (fl, sl) := by
    intro rmatch fl sl hne
    have hmap : ∀ s ∈ sl, sessTransform rmatch noArgs s = s := by
      intro s hs
      show (⟨s.subject, s.session, pruneEmpty s.files⟩ : SessionItem) = s
      have hp : pruneEmpty s.files = s.files := by
        cases hsf : s.files with
        | flat l => rfl
        | bymodal d =>
          show SessFiles.bymodal (d.filter (fun mv => !mv.2.isEmpty)) =
            SessFiles.bymodal d
          have hall := hne s hs
          rw [hsf] at hall
          rw [List.filter_eq_self.mpr (List.all_eq_true.mp hall)]
      rw [hp]
    show (fl, sl.map (sessTransform rmatch noArgs)) = (fl, sl)
    rw [List.map_congr_left hmap, List.map_id']
  refine ⟨fun _ _ _ _ _ _ _ _ h => (constructor_inv h).2.1, core, ?_⟩
  intro rmatch fsNow fac hne
  have heq : (RawDataset.filter rmatch fsNow fac noArgs).map
      (fun g => (g.file_list, g.session_list)) =
      .ok ((filterLists rmatch fac.file_list fac.session_list noArgs).1,
           (filterLists rmatch fac.file_list fac.session_list noArgs).2) := rfl
  rw [heq, core rmatch fac.file_list fac.session_list hne]

/-- C7 witness. -/
theorem claim7_no_predicate_identity_witness :
    (∀ s ∈ slW, sfNoEmpty s.files = true) ∧
    filterLists (fun _ _ => false) [fiW] slW noArgs = ([fiW], slW) :=
  ⟨by decide,
   claim7_no_predicate_identity.2.1 (fun _ _ => false) [fiW] slW (by decide)⟩

/-! ## C9 -/

theorem splitFirstChar_mem {c : Char} :
    ∀ {l : List Char} {p : List Char × List Char},
      splitFirstChar c l = some p → c ∈ l := by
  intro l
  induction l with
  | nil => intro p h; cases h
  | cons x xs ih =>
    intro p h
    unfold splitFirstChar at h
    by_cases hx : x = c
    · exact hx ▸ List.mem_cons_self x xs
    · rw [if_neg hx] at h
      cases hrec : splitFirstChar c xs with
      | none => rw [hrec] at h; cases h
      | some q => exact List.mem_cons_of_mem x (ih hrec)

theorem pySplit1_two_dot {f a b : String} (h : pySplit1 f '.' = [a, b]) :
    '.' ∈ f.data := by
  unfold pySplit1 at h
  cases hs : splitFirstChar '.' f.data with
  | none => rw [hs] at h; cases h
  | some p => exact splitFirstChar_mem hs

/-- C9: construction succeeds only when every file at max depth has at least
one dot in its name — whenever `_constructor` returns normally, every
filename it processed (every file recorded at max depth) contains a dot;
contrapositively, a dotless filename there makes the stem/extension
unpacking `filename, fileext = f.split('.', 1)` raise, aborting
construction. -/
theorem claim9_dot_required {files : DataItem} {ref : MaxDepthRef}
    {modal : Bool} {max_depth : Nat} {apl : List String} {absPath : String}
    {sl : List SessionItem} {fl : List FileItem}
    {entries : List (String × List String)}
    (hok : constructor files ref modal max_depth apl absPath = .ok (sl, fl))
    (hentries : dget files.by_depth max_depth = some entries) :
    ∀ e ∈ entries, ∀ f ∈ e.2, '.' ∈ f.data := by
  simp only [constructor, hentries, except_throw_bind, except_pure_bind,
    except_bind_ok, except_bind_err] at hok
  cases hfold : entries.foldlM (entryStep absPath apl max_depth ref)
      ⟨[], [], [], .bool modal⟩ with
  | error er =>
    rw [hfold] at hok
    simp only [except_throw_bind, except_pure_bind, except_bind_ok,
      except_bind_err] at hok
    cases hok
  | ok st =>
    intro e he f hf
    rcases foldlM_ok_forall hfold e he with ⟨st₁, st₂, hstep⟩
    rcases entryStep_ok hstep with
      ⟨subj, sess, mv, sl₀, processed', idx, lists, fs', _, _, hfold2, _, _⟩
    rcases foldlM_ok_forall hfold2 f hf with ⟨p₁, p₂, hfs⟩
    rcases fileStep_ok hfs with ⟨a, b, _, _, hsplit, _⟩
    exact pySplit1_two_dot hsplit

/-- C9 witness. -/
theorem claim9_dot_required_witness :
    constructor filesW ⟨2, 3⟩ true 2 [("data")] ("/data") = .ok (slW, [fiW]) ∧
    (∀ e ∈ [(("sub-01/anat" : String), ["sub-01_T1w.nii.gz"])],
      ∀ f ∈ e.2, '.' ∈ f.data) :=
  ⟨by decide,
   @claim9_dot_required filesW ⟨2, 3⟩ true 2 [("data")] ("/data") slW [fiW]
     [(("sub-01/anat" : String), ["sub-01_T1w.nii.gz"])] (by decide) (by decide)⟩

/-! ## C10 -/

/-- C10 counterexample: the claim states that `filter(annotation=A)` removes
all constructed records whenever `A` differs from the last path segment of the scan
root.  With `A = ""` (which differs from the root segment `"data"`) the
predicate guard `if annotation:` in `_filter` is falsy, so no filtering
happens at all and the record count stays 1. -/
theorem claim10_counterexample :
    ((RawDataset.init fsC4 ("/data") true none).bind
        (fun fac => RawDataset.filter (fun _ _ => false) fsC4 fac
          ⟨.pynone, .pynone, .pynone, PyStrs.str (""), none, none, none⟩)).map
      (fun g => g.file_list.length) = .ok 1 ∧
    ("" : String) ≠ ("data") := by
  constructor
  · decide
  · decide

/-- C10 (amended): every `FileItem` built by `_constructor` carries the scan
last path segment of the scan root in its fourth field — there is no
separate root-name field; consequently `filter(annotation=A)` with a
NON-EMPTY `A` keeps the whole flat list when `A` equals that segment and
removes every record otherwise, while the empty string is falsy in Python
and deactivates the annotation predicate entirely, keeping every record. -/
theorem claim10_annotation_is_root_name {files : DataItem} {ref : MaxDepthRef}
    {modal : Bool} {max_depth : Nat} {apl : List String} {absPath : String}
    {sl : List SessionItem} {fl : List FileItem}
    (hok : constructor files ref modal max_depth apl absPath = .ok (sl, fl))
    (A : String) (rmatch : String → String → Bool) :
    (∀ f ∈ fl, fannot f = apl.getLast?) ∧
    (A ≠ "" →
      (filterLists rmatch fl sl
        ⟨.pynone, .pynone, .pynone, PyStrs.str A, none, none, none⟩).1 =
        (if apl.getLast? = some A then fl else [])) ∧
    (filterLists rmatch fl sl
        ⟨.pynone, .pynone, .pynone, PyStrs.str (""), none, none, none⟩).1 = fl := by
  have hannot := (constructor_inv hok).2.2
  refine ⟨hannot, ?_, ?_⟩
  · intro hA
    have ht : (PyStrs.str A).truthy = true := by
      unfold PyStrs.truthy
      simp [hA]
    have hchain : (filterLists rmatch fl sl
        ⟨.pynone, .pynone, .pynone, PyStrs.str A, none, none, none⟩).1 =
        condFilter (PyStrs.str A).truthy
          (fun f => inStrsOpt [A] (fannot f)) fl := rfl
    rw [hchain]
    unfold condFilter
    rw [if_pos ht]
    by_cases hc : apl.getLast? = some A
    · rw [if_pos hc]
      apply List.filter_eq_self.mpr
      intro f hf
      rw [hannot f hf, hc]
      simp [inStrsOpt]
    · rw [if_neg hc]
      apply List.filter_eq_nil_iff.mpr
      intro f hf
      rw [hannot f hf]
      cases hg : apl.getLast? with
      | none => simp [inStrsOpt]
      | some r =>
        have hr : r ≠ A := fun hr => hc (by rw [hg, hr])
        simp [inStrsOpt, hr]
  · have ht : (PyStrs.str ("")).truthy = false := by decide
    have hchain : (filterLists rmatch fl sl
        ⟨.pynone, .pynone, .pynone, PyStrs.str (""), none, none, none⟩).1 =
        condFilter (PyStrs.str ("")).truthy
          (fun f => inStrsOpt [("")] (fannot f)) fl := rfl
    rw [hchain]
    unfold condFilter
    rw [ht]
    rfl

/-- C10 witness. -/
theorem claim10_annotation_is_root_name_witness :
    constructor filesW ⟨2, 3⟩ true 2 [("data")] ("/data") = .ok (slW, [fiW]) ∧
    ("x" : String) ≠ "" ∧
    (∀ f ∈ [fiW], fannot f = [("data")].getLast?) ∧
    (filterLists (fun _ _ => false) [fiW] slW
      ⟨.pynone, .pynone, .pynone, PyStrs.str ("x"), none, none, none⟩).1 = [] := by
  have h := @claim10_annotation_is_root_name filesW ⟨2, 3⟩ true 2 [("data")]
    ("/data") slW [fiW] (by decide) ("x") (fun _ _ => false)
  refine ⟨by decide, by decide, h.1, ?_⟩
  rw [h.2.1 (by decide)]
  decide

/-! ## C8 -/

theorem splitFirstChar_eq {c : Char} :
    ∀ {l : List Char}, c ∈ l →
      splitFirstChar c l =
        some (l.takeWhile (fun x => x ≠ c), (l.dropWhile (fun x => x ≠ c)).drop 1) := by
  intro l
  induction l with
  | nil => intro h; cases h
  | cons x xs ih =>
    intro h
    unfold splitFirstChar
    by_cases hx : x = c
    · rw [if_pos hx]
      subst hx
      rw [List.takeWhile_cons_of_neg (by simp), List.dropWhile_cons_of_neg (by simp)]
      simp
    · rw [if_neg hx]
      have hmem : c ∈ xs := by
        rcases List.mem_cons.mp h with rfl | h2
        · exact absurd rfl hx
        · exact h2
      rw [ih hmem]
      rw [List.takeWhile_cons_of_pos (by simp [hx]),
        List.dropWhile_cons_of_pos (by simp [hx])]

theorem pySplit1_eq {f : String} (hdot : '.' ∈ f.data) :
    pySplit1 f '.' =
      [String.mk (f.data.takeWhile (fun ch => ch ≠ '.')),
       String.mk ((f.data.dropWhile (fun ch => ch ≠ '.')).drop 1)] := by
  unfold pySplit1
  rw [splitFirstChar_eq hdot]

theorem constructor_single_file (f a b : String) (hs : pySplit1 f '.' = [a, b]) :
    constructor ⟨[(2, [("sub-01/anat", [f])])]⟩ ⟨2, 3⟩ true 2 [("data")] ("/data") =
      .ok ([⟨"sub-01", none,
             .bymodal [("anat",
               [⟨"sub-01", none, some ("anat"), some ("data"),
                 "/data/sub-01/anat", a, b⟩])]⟩],
           [⟨"sub-01", none, some ("anat"), some ("data"),
             "/data/sub-01/anat", a, b⟩]) := by
  have hfs : fileStep ("/data") [("data")] ("sub-01/anat") ("sub-01") none
      (.str ("anat")) 0 ([⟨"sub-01", none, .bymodal []⟩], []) f =
      .ok ([⟨"sub-01", none, .bymodal [(("anat" : String),
            [⟨"sub-01", none, some ("anat"), some ("data"),
              "/data/sub-01/anat", a, b⟩])]⟩],
           [⟨"sub-01", none, some ("anat"), some ("data"),
             "/data/sub-01/anat", a, b⟩]) := by
    simp only [fileStep, hs, except_throw_bind, except_pure_bind,
      except_bind_ok, except_bind_err]
    rfl
  have hpm : parseMeta 2 ⟨2, 3⟩ (.bool true) ("sub-01/anat") =
      .ok (("sub-01" : String), none, .str ("anat")) := rfl
  have he : entryStep ("/data") [("data")] 2 ⟨2, 3⟩ ⟨[], [], [], .bool true⟩
      (("sub-01/anat" : String), [f]) =
      .ok ⟨[("sub-01-None")],
           [⟨"sub-01", none, .bymodal [(("anat" : String),
             [⟨"sub-01", none, some ("anat"), some ("data"),
               "/data/sub-01/anat", a, b⟩])]⟩],
           [⟨"sub-01", none, some ("anat"), some ("data"),
             "/data/sub-01/anat", a, b⟩], .str ("anat")⟩ := by
    simp only [entryStep, hpm, except_bind_ok]
    rw [if_neg (by decide :
      ¬(([] : List String).contains (taskIdOf ("sub-01") none) = true))]
    simp only [except_pure_bind]
    dsimp only
    rw [if_pos (by decide : (PyModal.str ("anat")).truthy = true)]
    simp only [List.length_nil, List.nil_append, List.foldlM_cons,
      List.foldlM_nil, except_pure_bind, except_bind_ok]
    rw [hfs]
    simp only [except_bind_ok, except_pure_bind]
    rfl
  simp only [constructor]
  rw [show dget (⟨[(2, [("sub-01/anat", [f])])]⟩ : DataItem).by_depth 2 =
    some [(("sub-01/anat" : String), [f])] from rfl]
  simp only [List.foldlM_cons, List.foldlM_nil, except_pure_bind,
    except_bind_ok, he]
  rfl

/-- C8: for every filename containing at least one dot, the Constructor
splits it on the first dot only — the stem of the record is the substring before
the first dot and its extension is everything after it (stated on a
one-file tree at single-session modality depth, with the filename
universally quantified). -/
theorem claim8_first_dot_split (f : String) (hdot : '.' ∈ f.data) :
    (constructor ⟨[(2, [("sub-01/anat", [f])])]⟩ ⟨2, 3⟩ true 2 [("data")]
        ("/data")).map
        (fun p => p.2.map (fun fi => (fi.filename, fi.fileext))) =
      .ok [(String.mk (f.data.takeWhile (fun ch => ch ≠ '.')),
            String.mk ((f.data.dropWhile (fun ch => ch ≠ '.')).drop 1))] := by
  rw [constructor_single_file f
    (String.mk (f.data.takeWhile (fun ch => ch ≠ '.')))
    (String.mk ((f.data.dropWhile (fun ch => ch ≠ '.')).drop 1))
    (pySplit1_eq hdot)]
  rfl

/-- C8 witness: `"sub-01_T1w.nii.gz"` yields stem `"sub-01_T1w"` and
extension `"nii.gz"`. -/
theorem claim8_first_dot_split_witness :
    '.' ∈ ("sub-01_T1w.nii.gz" : String).data ∧
    (constructor ⟨[(2, [("sub-01/anat", ["sub-01_T1w.nii.gz"])])]⟩ ⟨2, 3⟩ true 2
        [("data")] ("/data")).map
        (fun p => p.2.map (fun fi => (fi.filename, fi.fileext))) =
      .ok [(("sub-01_T1w" : String), ("nii.gz" : String))] :=
  ⟨by decide, by
    have h := claim8_first_dot_split ("sub-01_T1w.nii.gz") (by decide)
    rw [h]
    decide⟩

end Nip
